import Mathlib

/-!
# consul-terraform-sync: catalog-services condition and template functions

A shallow embedding of

* `config/condition_catalog_services.go` (`CatalogServicesConditionConfig` with
  `Copy`, `Merge`, `Finalize`, `Validate`, `GoString`),
* `templates/tftmpl/tmplfunc/tmpl_func.go` (`joinStringsFunc`, `hclServiceTagsFunc`), and
* the interfaces of `controller/hcat.go` (`resolver`, `watcher`, `template`), whose
  behaviour is taken from the specification,

followed by theorems about them.

Conventions of the embedding:

* a Go `string` is a Lean `String` (a Go string that is valid UTF-8);
* a Go pointer `*T` that is only compared with `nil` and dereferenced is an
  `Option T`, `none` being `nil`;
* a Go `map[string]string` is an `Option GoMap`: `none` is the nil map and
  `some m` a (possibly empty) map; `GoMap` is a finite map with extensional
  equality, so that two maps are equal exactly when they hold the same keys with
  the same values;
* a method with a pointer receiver that mutates the receiver (`Finalize`) is a
  function from the receiver's value before the call to its value after it;
* a value of the interface `ConditionConfig` is an `Option ConditionPtr`: `none`
  is the nil interface, `some p` a pointer (possibly nil) of a concrete variant.
-/

namespace CTS

/-! ## Go maps -/

/-- The contents of a non-nil Go `map[string]string`. -/
abbrev GoMap := Finmap (fun _ : String => String)

/-- Go `make(map[string]string)`: a fresh empty map. -/
def GoMap.make : GoMap := ∅

/-- Go `m[k] = v`. -/
def GoMap.assign (m : GoMap) (k v : String) : GoMap := Finmap.insert k v m

/-- Go `m[k]` with the comma-ok form: the value stored under `k`, if any. -/
def GoMap.get (m : GoMap) (k : String) : Option String := Finmap.lookup k m

/-- The loop body `dst[k] = v` run over a list of entries, in the order of the list. -/
def GoMap.assignEntries (dst : GoMap) (entries : List (Sigma (fun _ : String => String))) : GoMap :=
  entries.foldl (fun acc e => GoMap.assign acc e.1 e.2) dst

/-- Lookup after running `dst[k] = v` over a list of entries with distinct keys. -/
theorem GoMap.get_assignEntries (entries : List (Sigma (fun _ : String => String)))
    (hnd : entries.NodupKeys) (dst : GoMap) (k : String) :
    GoMap.get (GoMap.assignEntries dst entries) k =
      (match entries.dlookup k with
       | some v => some v
       | none => GoMap.get dst k) := by
  induction entries generalizing dst with
  | nil => simp [GoMap.assignEntries]
  | cons e t ih =>
    obtain ⟨ek, ev⟩ := e
    have hnd2 := List.nodupKeys_cons.mp hnd
    have ih2 := ih hnd2.2 (GoMap.assign dst ek ev)
    simp only [GoMap.assignEntries, List.foldl_cons] at ih2 ⊢
    rw [ih2]
    by_cases hk : k = ek
    · subst hk
      have hnone : List.dlookup k t = none := List.dlookup_eq_none.mpr hnd2.1
      rw [hnone, List.dlookup_cons_eq]
      simp [GoMap.get, GoMap.assign]
    · rw [List.dlookup_cons_ne _ _ hk]
      cases hlk : List.dlookup k t with
      | some v => rfl
      | none => simp [GoMap.get, GoMap.assign, Finmap.lookup_insert_of_ne _ hk]

/-- Go `for k, v := range src { dst[k] = v }`. Go leaves the iteration order of a
map unspecified; the result does not depend on it. -/
def GoMap.assignAll (dst src : GoMap) : GoMap :=
  Finmap.liftOn src (fun s => GoMap.assignEntries dst s.entries) (by
    intro a b hab
    apply Finmap.ext_lookup
    intro k
    have ha := GoMap.get_assignEntries a.entries a.nodupKeys dst k
    have hb := GoMap.get_assignEntries b.entries b.nodupKeys dst k
    simp only [GoMap.get] at ha hb
    rw [ha, hb, List.perm_dlookup k a.nodupKeys b.nodupKeys hab])

/-- Go `m[k]` with the comma-ok form on a map that may be nil: a nil map has no key. -/
def nodeMetaGet (m : Option GoMap) (k : String) : Option String :=
  match m with
  | none => none
  | some m => GoMap.get m k

/-! ## Helpers of package `config` and of the Go standard library -/

/-- Modelled from the spec: the helper `String(s)` of package config (not in src)
returns a pointer to a string holding `s`, that is a set field. -/
def StringPtr (s : String) : Option String := some s

/-- Modelled from the spec: the helper `Bool(b)` of package config (not in src)
returns a pointer to a bool holding `b`, that is a set field. -/
def BoolPtr (b : Bool) : Option Bool := some b

/-- Modelled from the spec: the helper `StringCopy` of package config (not in src)
duplicates a string pointer; nil stays nil ("fully independent deep duplicate"). -/
def StringCopy (s : Option String) : Option String :=
  match s with
  | none => none
  | some v => StringPtr v

/-- Modelled from the spec: the helper `BoolCopy` of package config (not in src)
duplicates a bool pointer; nil stays nil. -/
def BoolCopy (b : Option Bool) : Option Bool :=
  match b with
  | none => none
  | some v => BoolPtr v

/-- Modelled from the spec: the helper `StringVal` of package config (not in src)
gives the displayed value of a string pointer, the empty string when it is nil. -/
def StringVal (s : Option String) : String :=
  match s with
  | none => ""
  | some v => v

/-- Modelled from the spec: the helper `BoolVal` of package config (not in src)
gives the displayed value of a bool pointer, false when it is nil. -/
def BoolVal (b : Option Bool) : Bool :=
  match b with
  | none => false
  | some v => v

/-- Go `strings.Join(elems, sep)`: nothing for no element, the element itself for
one, otherwise the first element followed by `sep` and the next element, in turn. -/
def stringsJoin (elems : List String) (sep : String) : String :=
  match elems with
  | [] => ""
  | [e] => e
  | e :: rest => rest.foldl (fun b s => b ++ sep ++ s) e

/-! ## The condition configuration -/

/-- Go `type CatalogServicesConditionConfig struct`: every pointer field is
optional, and so is the map. -/
structure CatalogServicesConditionConfig where
  Regexp : Option String
  SourceIncludesVar : Option Bool
  Datacenter : Option String
  Namespace : Option String
  NodeMeta : Option GoMap
deriving DecidableEq

/-- Modelled from the spec: a condition of a concrete variant other than
catalog-services. Those variants are not in src; their fields are kept as one
uninterpreted value. -/
structure OtherConditionConfig where
  payload : String
deriving DecidableEq

/-- A non-nil value of the interface `ConditionConfig`: a pointer, possibly nil, of
one of the concrete variants. -/
inductive ConditionPtr where
  | catalogServices (p : Option CatalogServicesConditionConfig)
  | other (p : Option OtherConditionConfig)
deriving DecidableEq

/-- A value of the interface `ConditionConfig`; `none` is the nil interface. -/
abbrev ConditionConfig := Option ConditionPtr

/-- Modelled from the spec: the helper `isConditionNil` (not in src) tells whether
an interface value is absent: the nil interface or a nil pointer of any variant. -/
def isConditionNil (o : ConditionConfig) : Bool :=
  match o with
  | none => true
  | some (ConditionPtr.catalogServices none) => true
  | some (ConditionPtr.other none) => true
  | some _ => false

/-- Go `func (c *CatalogServicesConditionConfig) Copy() ConditionConfig`. -/
def CatalogServicesConditionConfig.Copy (c : Option CatalogServicesConditionConfig) :
    ConditionConfig :=
  match c with
  | none => none
  | some c =>
    some (ConditionPtr.catalogServices (some
      { Regexp := StringCopy c.Regexp
        SourceIncludesVar := BoolCopy c.SourceIncludesVar
        Datacenter := StringCopy c.Datacenter
        Namespace := StringCopy c.Namespace
        NodeMeta :=
          match c.NodeMeta with
          | none => none
          | some m => some (GoMap.assignAll GoMap.make m) }))

/-- Modelled from the spec: `Copy` of a condition of another variant (not in src):
a nil receiver gives nil, otherwise a duplicate of the same variant. -/
def OtherConditionConfig.Copy (c : Option OtherConditionConfig) : ConditionConfig :=
  match c with
  | none => none
  | some c => some (ConditionPtr.other (some { payload := c.payload }))

/-- The method call `o.Copy()` on a non-nil interface value, dispatched on the
concrete variant. -/
def ConditionPtr.Copy (o : ConditionPtr) : ConditionConfig :=
  match o with
  | ConditionPtr.catalogServices p => CatalogServicesConditionConfig.Copy p
  | ConditionPtr.other p => OtherConditionConfig.Copy p

/-- Go `func (c *CatalogServicesConditionConfig) Merge(o ConditionConfig) ConditionConfig`.
The type assertion `o.(*CatalogServicesConditionConfig)` succeeds exactly on the
first constructor; `r.(*CatalogServicesConditionConfig)` is on the copy of the
receiver. -/
def CatalogServicesConditionConfig.Merge (c : Option CatalogServicesConditionConfig)
    (o : ConditionConfig) : ConditionConfig :=
  match c with
  | none =>
    if isConditionNil o then none
    else
      match o with
      | none => none
      | some p => p.Copy
  | some c =>
    if isConditionNil o then CatalogServicesConditionConfig.Copy (some c)
    else
      let r := CatalogServicesConditionConfig.Copy (some c)
      match o with
      | some (ConditionPtr.catalogServices (some o2)) =>
        match r with
        | some (ConditionPtr.catalogServices (some r2)) =>
          let r2 := match o2.Regexp with
            | some _ => { r2 with Regexp := StringCopy o2.Regexp }
            | none => r2
          let r2 := match o2.SourceIncludesVar with
            | some _ => { r2 with SourceIncludesVar := BoolCopy o2.SourceIncludesVar }
            | none => r2
          let r2 := match o2.Datacenter with
            | some _ => { r2 with Datacenter := StringCopy o2.Datacenter }
            | none => r2
          let r2 := match o2.Namespace with
            | some _ => { r2 with Namespace := StringCopy o2.Namespace }
            | none => r2
          let r2 := match o2.NodeMeta with
            | some om =>
              let r2 := match r2.NodeMeta with
                | none => { r2 with NodeMeta := some GoMap.make }
                | some _ => r2
              match r2.NodeMeta with
              | some rm => { r2 with NodeMeta := some (GoMap.assignAll rm om) }
              | none => r2
            | none => r2
          some (ConditionPtr.catalogServices (some r2))
        | _ => r
      | _ => r

/-- The loop of `Finalize` that fills the slice `regex`, made with
`make([]string, len(services))`, by `regex[ix] = fmt.Sprintf("^%s$", s)`. -/
def anchorEach (services : List String) : List String :=
  services.enum.foldl (fun regex p => regex.set p.1 ("^" ++ p.2 ++ "$"))
    (List.replicate services.length "")

/-- Go `func (c *CatalogServicesConditionConfig) Finalize(services []string)`: the
receiver after the call, given the receiver before it. -/
def CatalogServicesConditionConfig.Finalize (c : Option CatalogServicesConditionConfig)
    (services : List String) : Option CatalogServicesConditionConfig :=
  match c with
  | none => none
  | some c =>
    let c := if c.Regexp = none ∧ services.length > 0 then
        { c with Regexp := StringPtr (stringsJoin (anchorEach services) "|") }
      else c
    let c := if c.SourceIncludesVar = none then
        { c with SourceIncludesVar := BoolPtr false }
      else c
    let c := if c.Datacenter = none then { c with Datacenter := StringPtr "" } else c
    let c := if c.Namespace = none then { c with Namespace := StringPtr "" } else c
    let c := if c.NodeMeta = none then { c with NodeMeta := some GoMap.make } else c
    some c

/-- Go `func (c *CatalogServicesConditionConfig) Validate() error`; `Except.ok ()`
is the nil error. `regexpCompile` stands for `regexp.Compile` of the Go standard
library, of which only the error is used. -/
def CatalogServicesConditionConfig.Validate (regexpCompile : String → Except String Unit)
    (c : Option CatalogServicesConditionConfig) : Except String Unit :=
  match c with
  | none => Except.ok ()
  | some c =>
    if c.Regexp = none then
      Except.error ("task.services and catalog-services regexp cannot " ++ "both be unset")
    else
      match regexpCompile (StringVal c.Regexp) with
      | Except.error err =>
        Except.error ("unable to compile catalog-services regexp: " ++ err)
      | Except.ok _ => Except.ok ()

/-- Go `fmt` printing a `map[string]string` with `%s`: `map[k1:v1 k2:v2]`, the
entries in increasing order of the keys; a nil map prints like an empty one. -/
def fmtMap (m : Option GoMap) : String :=
  match m with
  | none => "map[]"
  | some m =>
    "map[" ++ stringsJoin
      ((m.keys.sort (fun a b => a ≤ b)).map (fun k => k ++ ":" ++ StringVal (GoMap.get m k)))
      " " ++ "]"

/-- Go `fmt` printing a bool with `%v`. -/
def fmtBool (b : Bool) : String := if b then "true" else "false"

/-- Go `func (c *CatalogServicesConditionConfig) GoString() string`. -/
def CatalogServicesConditionConfig.GoString (c : Option CatalogServicesConditionConfig) :
    String :=
  match c with
  | none => "(*CatalogServicesConditionConfig)(nil)"
  | some c =>
    "&CatalogServicesConditionConfig\x7b" ++
    "Regexp:" ++ StringVal c.Regexp ++ ", " ++
    "SourceIncludesVar:" ++ fmtBool (BoolVal c.SourceIncludesVar) ++ ", " ++
    "Datacenter:" ++ StringVal c.Datacenter ++ ", " ++
    "Namespace:" ++ StringVal c.Namespace ++ ", " ++
    "NodeMeta:" ++ fmtMap c.NodeMeta ++
    "\x7d"

/-! ## Template functions -/

/-- Go `func joinStringsFunc(sep string, values ...string) string`. -/
def joinStringsFunc (sep : String) (values : List String) : String :=
  if values.length = 0 then ""
  else
    let cleaned := values.foldl (fun cleaned v => if v ≠ "" then cleaned ++ [v] else cleaned) []
    stringsJoin cleaned sep

/-- A catalog-services pointer, nil or not, stored in an interface value, as when it
is passed to `Merge`. -/
def CatalogServicesConditionConfig.toCondition (p : Option CatalogServicesConditionConfig) :
    ConditionConfig :=
  some (ConditionPtr.catalogServices p)

/-- The method call `r.Merge(o)` on an interface value `r`, where it reaches the
`Merge` of this file: `r` holds a catalog-services pointer, nil or not. The result is
`none` where the call gives no value here: on the nil interface Go panics with a nil
dereference, since no method can be dispatched, and the `Merge` of the other variants
is not in src. -/
def ConditionConfig.Merge (r o : ConditionConfig) : Option ConditionConfig :=
  match r with
  | none => none
  | some (ConditionPtr.catalogServices p) => some (CatalogServicesConditionConfig.Merge p o)
  | some (ConditionPtr.other _) => none

/-- Go `a <= b` on strings: lexicographic on the bytes, which on valid UTF-8 is
lexicographic on the code points. -/
def goStringLe (a b : String) : Prop := a.data ≤ b.data

instance goStringLe.decidable : DecidableRel goStringLe :=
  fun a b => inferInstanceAs (Decidable (a.data ≤ b.data))

/-- Go `sort.Strings(t)`: the slice in increasing order. A slice of strings has one
sorted arrangement only; it is computed here by insertion. -/
def sortStrings (t : List String) : List String := t.insertionSort goStringLe

/-- Go `strings.Split(s, sep)` for a separator `sep` of one character. -/
def stringsSplit (s : String) (sep : Char) : List String :=
  (s.data.splitOn sep).map String.mk

/-- The loop of `hclServiceTagsFunc` that fills the slice `t`, made with
`make([]string, len(*tags))`, by `t[ix] = fmt.Sprintf("\"%s\"", tag)`. -/
def quoteEach (tags : List String) : List String :=
  tags.enum.foldl (fun t p => t.set p.1 ("\"" ++ p.2 ++ "\""))
    (List.replicate tags.length "")

/-- Go `hclServiceTagsFunc()`: the function it returns, applied to a non-nil pointer
to the tags. -/
def hclServiceTagsFunc (tags : List String) : String :=
  let t := quoteEach tags
  let t := sortStrings t
  "[" ++ stringsJoin t ", " ++ "]"

/-- The characters `strings.Join` writes after the first element: for each further
element, the separator and then the element. -/
def joinTail (sep : List Char) : List String → List Char
  | [] => []
  | s :: rest => sep ++ s.data ++ joinTail sep rest

/-- The rendering of the tags as the spec words it: the tags in lexicographic
order, each wrapped in double quotes, separated by a comma and a blank, between
square brackets. -/
def hclServiceTagsSpec (tags : List String) : String :=
  "[" ++ ", ".intercalate ((sortStrings tags).map (fun t => "\"" ++ t ++ "\"")) ++ "]"

/-- A string that is a tag without double quote wrapped in double quotes (the
character of code point 34). -/
def IsQuotedTag (s : String) : Prop :=
  ∃ t : List Char, Char.ofNat 34 ∉ t ∧ s.data = Char.ofNat 34 :: (t ++ [Char.ofNat 34])

/-! ## The watcher and the resolver

`controller/hcat.go` declares the interfaces `template`, `resolver` and `watcher` only;
what their methods do is taken from sections 4.2 and 4.3 of the specification. -/

/-- Modelled from the spec: what the tracker keeps for one dependency (4.2), not in
src: the registered flag, the last-known value, `none` while the dependency is still
loading, and the flag "changed since last check". -/
structure DepState where
  registered : Bool
  value : Option String
  changed : Bool

/-- Modelled from the spec: the state behind the interface `watcher` (4.2), not in
src: a mapping from dependency key to its state, a key never added having the state
of `DepState.untracked`, and the dependencies associated with each template
identity. -/
structure Watcher where
  deps : String → DepState
  templates : String → List String

/-- Modelled from the spec: the state of a dependency that was never added. -/
def DepState.untracked : DepState := { registered := false, value := none, changed := false }

/-- Modelled from the spec: a watcher that tracks nothing yet. -/
def Watcher.empty : Watcher :=
  { deps := fun _ => DepState.untracked, templates := fun _ => [] }

/-- Modelled from the spec: `add(dependency)` (4.2) "registers a new dependency for
background data collection if not already registered; returns whether it was newly
added (false if already tracked)". The implementation of `watcher.Add` is not in
src. -/
def Watcher.Add (w : Watcher) (d : String) : Watcher × Bool :=
  if (w.deps d).registered then (w, false)
  else
    ({ w with deps := fun k => if k = d then { w.deps d with registered := true } else w.deps k },
      true)

/-- Modelled from the spec: `recall(dependencyKey)` (4.2) "returns the last-known
value for a dependency and whether a value exists yet"; `none` is "still loading".
The implementation of `watcher.Recall` is not in src. -/
def Watcher.Recall (w : Watcher) (d : String) : Option String := (w.deps d).value

/-- Modelled from the spec: `changed(templateIdentity)` (4.2) "reports whether any
dependency associated with the given template identity has new data not yet
consumed". The implementation of `watcher.Changed` is not in src. -/
def Watcher.Changed (w : Watcher) (tmplID : String) : Bool :=
  (w.templates tmplID).any (fun k => (w.deps k).changed)

/-- Modelled from the spec: `register(templateIdentity, dependencies...)` (4.2)
"associates a template identity with the set of dependencies it currently depends
on"; "re-registering replaces the prior association". The implementation of
`watcher.Register` is not in src. -/
def Watcher.Register (w : Watcher) (tmplID : String) (ds : List String) : Watcher :=
  { w with templates := fun t => if t = tmplID then ds else w.templates t }

/-- Modelled from the spec: the data of the given dependencies is consumed by a
render pass, so that a second pass without new data reports no change (8). -/
def Watcher.consume (w : Watcher) (ds : List String) : Watcher :=
  { w with deps := fun k => if k ∈ ds then { w.deps k with changed := false } else w.deps k }

/-- Modelled from the spec: the registry collaborator (6) "supplies raw entity
snapshots for dependencies once added via `add`": a snapshot for a registered
dependency becomes its last-known value and raises its changed flag; one for a
dependency that was not added is dropped. -/
def Watcher.deliver (w : Watcher) (d value : String) : Watcher :=
  if (w.deps d).registered then
    { w with deps := fun k =>
        if k = d then { w.deps d with value := some value, changed := true } else w.deps k }
  else w

/-- Modelled from the spec: a template body (4.3), not in src, as the course of its
execution: it ends with its text, or raises a templating error ("malformed function
call, type mismatch in function arguments"), or references a dependency and goes on
with the value recalled for it, `none` while the dependency is still loading. -/
inductive TemplateBody where
  | text (out : String)
  | fail (err : String)
  | ref (d : String) (next : Option String → TemplateBody)

/-- Modelled from the spec: a template behind the interface `template`, not in src:
its identity and its body. -/
structure Template where
  ID : String
  body : TemplateBody

/-- Modelled from the spec: what one execution of a template body gives: the text or
the templating error, the dependencies referenced during this pass, in order, and the
watcher after the pass. -/
structure ExecuteResult where
  result : Except String String
  refs : List String
  watcher : Watcher

/-- Modelled from the spec: step 1 of `run` (4.3): "Execute `templateBody` against
`tracker`, where every reference to a dependency inside the body triggers
`tracker.add` (idempotent) and `tracker.recall`". The implementation of
`template.Execute` is not in src. -/
def TemplateBody.Execute : TemplateBody → Watcher → ExecuteResult
  | TemplateBody.text out, w => { result := Except.ok out, refs := [], watcher := w }
  | TemplateBody.fail err, w => { result := Except.error err, refs := [], watcher := w }
  | TemplateBody.ref d next, w =>
    let w1 := (w.Add d).1
    let r := (next (w1.Recall d)).Execute w1
    { result := r.result, refs := d :: r.refs, watcher := r.watcher }

/-- Modelled from the spec: the result of a render pass (4.3): flagged "not ready",
with no output, or the rendered text with the flag "changed". -/
inductive ResolveEvent where
  | notReady
  | rendered (text : String) (changed : Bool)

/-- Modelled from the spec: `run(templateBody, tracker)` (4.3), the implementation of
`resolver.Run` not being in src. Step 1: the body is executed against the tracker; "a
templating error during execution" is "fatal for that pass and surfaces to the
caller", the tracker keeping what the execution added. Step 2: "if any referenced
dependency has no value yet", the result is flagged "not ready", with no output.
Step 3: otherwise the text is the output and the template identity is registered
against the dependencies referenced during this pass. Step 4: the result is flagged
"changed" when the dependency set differs from that of the previous pass or `changed`
reports new data, which the pass consumes. -/
def Resolver.Run (tmpl : Template) (w : Watcher) : Except String ResolveEvent × Watcher :=
  let r := tmpl.body.Execute w
  match r.result with
  | Except.error err => (Except.error err, r.watcher)
  | Except.ok text =>
    if r.refs.any (fun d => (r.watcher.Recall d).isNone) then
      (Except.ok ResolveEvent.notReady, r.watcher)
    else
      let changed := r.watcher.Changed tmpl.ID || decide (r.watcher.templates tmpl.ID ≠ r.refs)
      (Except.ok (ResolveEvent.rendered text changed),
        (r.watcher.Register tmpl.ID r.refs).consume r.refs)

/-- What happens to a watcher: the caller runs a template against it, or the
registry collaborator delivers a snapshot. -/
inductive WatchEvent where
  | run (tmpl : Template)
  | deliver (d value : String)

/-- The watcher after one event. -/
def Watcher.step (w : Watcher) (e : WatchEvent) : Watcher :=
  match e with
  | WatchEvent.run tmpl => (Resolver.Run tmpl w).2
  | WatchEvent.deliver d value => w.deliver d value

/-- The watcher after a sequence of events. -/
def Watcher.after (w : Watcher) (events : List WatchEvent) : Watcher :=
  events.foldl Watcher.step w

/-! ## Lemmas on Go maps -/

/-- Lookup after `for k, v := range src { dst[k] = v }`: the value of `src` where
`src` has the key, the value of `dst` elsewhere. -/
theorem GoMap.get_assignAll (dst src : GoMap) (k : String) :
    GoMap.get (GoMap.assignAll dst src) k =
      (match GoMap.get src k with
       | some v => some v
       | none => GoMap.get dst k) := by
  induction src using Finmap.induction_on with
  | H a =>
    simp only [GoMap.assignAll, Finmap.liftOn_toFinmap]
    rw [GoMap.get_assignEntries a.entries a.nodupKeys dst k]
    simp only [GoMap.get, Finmap.lookup_toFinmap, AList.lookup]

/-- The same, on the underlying finite maps. -/
theorem GoMap.lookup_assignAll (dst src : GoMap) (k : String) :
    Finmap.lookup k (GoMap.assignAll dst src) =
      (match Finmap.lookup k src with
       | some v => some v
       | none => Finmap.lookup k dst) :=
  GoMap.get_assignAll dst src k

/-- Copying every entry into a fresh map gives a map equal to the original. -/
theorem GoMap.assignAll_make (m : GoMap) : GoMap.assignAll GoMap.make m = m := by
  apply Finmap.ext_lookup
  intro k
  have h := GoMap.get_assignAll GoMap.make m k
  have hmake : Finmap.lookup k GoMap.make = none := Finmap.lookup_empty k
  simp only [GoMap.get, hmake] at h
  rw [h]
  cases Finmap.lookup k m <;> rfl

/-- The range-assign loop computes the union in which the source wins. -/
theorem GoMap.assignAll_eq_union (dst src : GoMap) : GoMap.assignAll dst src = src ∪ dst := by
  apply Finmap.ext_lookup
  intro k
  have h := GoMap.get_assignAll dst src k
  simp only [GoMap.get] at h
  rw [h]
  cases hlk : Finmap.lookup k src with
  | some v =>
    have hmem : k ∈ src := Finmap.mem_of_lookup_eq_some hlk
    rw [Finmap.lookup_union_left hmem, hlk]
  | none =>
    have hmem : k ∉ src := Finmap.lookup_eq_none.mp hlk
    rw [Finmap.lookup_union_right hmem]

/-! ## Lemmas on the helpers -/

@[simp] theorem StringCopy_eq (s : Option String) : StringCopy s = s := by
  cases s <;> rfl

@[simp] theorem BoolCopy_eq (b : Option Bool) : BoolCopy b = b := by
  cases b <;> rfl

/-- The value `Copy` returns for a non-nil receiver. -/
theorem Copy_some (c : CatalogServicesConditionConfig) :
    CatalogServicesConditionConfig.Copy (some c) =
      some (ConditionPtr.catalogServices (some c)) := by
  obtain ⟨re, siv, dc, ns, nm⟩ := c
  cases nm with
  | none => simp [CatalogServicesConditionConfig.Copy]
  | some m => simp [CatalogServicesConditionConfig.Copy, GoMap.assignAll_make]

/-- Go `strings.Join` is the library's `String.intercalate`. -/
theorem stringsJoin_eq_intercalate (elems : List String) (sep : String) :
    stringsJoin elems sep = sep.intercalate elems := by
  have hgo : ∀ (rest : List String) (acc : String),
      rest.foldl (fun b s => b ++ sep ++ s) acc = String.intercalate.go acc sep rest := by
    intro rest
    induction rest with
    | nil => intro acc; rfl
    | cons a t ih => intro acc; simp only [List.foldl_cons, String.intercalate.go]; exact ih _
  match elems with
  | [] => rfl
  | [e] => rfl
  | e :: f :: rest => exact hgo (f :: rest) e

/-- The loop filling `regex` index by index, started with `done` already filled
in front of the slots `rest` still to fill. -/
theorem anchorEach_loop (todo done rest : List String) (hlen : rest.length = todo.length) :
    (todo.enumFrom done.length).foldl (fun regex p => regex.set p.1 ("^" ++ p.2 ++ "$"))
        (done ++ rest) =
      done ++ todo.map (fun s => "^" ++ s ++ "$") := by
  induction todo generalizing done rest with
  | nil =>
    have hrest : rest = [] := List.length_eq_zero.mp hlen
    simp [hrest]
  | cons t ts ih =>
    match rest, hlen with
    | r :: rs, hlen =>
      have hlen2 : rs.length = ts.length := by simpa using hlen
      have hstep : (done ++ r :: rs).set done.length ("^" ++ t ++ "$") =
          (done ++ ["^" ++ t ++ "$"]) ++ rs := by
        rw [List.set_append_right _ _ (Nat.le_refl _)]
        simp
      have hnext := ih (done ++ ["^" ++ t ++ "$"]) rs hlen2
      simp only [List.length_append, List.length_singleton] at hnext
      simp only [List.enumFrom_cons, List.foldl_cons, hstep, hnext, List.map_cons]
      simp

/-- The slice `regex` built by `Finalize` holds `"^" + s + "$"` for each service
name `s`, in the order of the names. -/
theorem anchorEach_eq_map (services : List String) :
    anchorEach services = services.map (fun s => "^" ++ s ++ "$") := by
  have h := anchorEach_loop services [] (List.replicate services.length "") (by simp)
  simpa [anchorEach, List.enum] using h

/-- The loop of `joinStringsFunc` keeps exactly the non-empty values, in order. -/
theorem cleaned_eq_filter (values acc : List String) :
    values.foldl (fun cleaned v => if v ≠ "" then cleaned ++ [v] else cleaned) acc =
      acc ++ values.filter (fun v => decide (v ≠ "")) := by
  induction values generalizing acc with
  | nil => simp
  | cons v vs ih =>
    by_cases hv : v = ""
    · rw [List.foldl_cons, if_neg (not_not.mpr hv), ih, List.filter_cons_of_neg (by simpa using hv)]
    · rw [List.foldl_cons, if_pos hv, ih, List.filter_cons_of_pos (by simpa using hv)]
      simp

/-! ## Merge -/

/-- C1: for non-absent catalog-services conditions `c` (base) and `o` (override),
`c.Merge(o)` is a non-nil catalog-services condition `r` in which each of Regexp,
SourceIncludesVar, Datacenter and Namespace is the value of `o` where `o` has the
field set and the value of `c` otherwise, and whose NodeMeta is the key-wise union
of both maps: under every key it holds the value of `o` when `o` has the key, and
otherwise the value of `c` (so no key of `c` is lost). NodeMeta is nil only when it
is nil in both. -/
theorem C1_merge_fieldwise (c o : CatalogServicesConditionConfig) :
    ∃ r : CatalogServicesConditionConfig,
      CatalogServicesConditionConfig.Merge (some c)
          (some (ConditionPtr.catalogServices (some o))) =
        some (ConditionPtr.catalogServices (some r)) ∧
      r.Regexp = (match o.Regexp with | some v => some v | none => c.Regexp) ∧
      r.SourceIncludesVar =
        (match o.SourceIncludesVar with | some v => some v | none => c.SourceIncludesVar) ∧
      r.Datacenter = (match o.Datacenter with | some v => some v | none => c.Datacenter) ∧
      r.Namespace = (match o.Namespace with | some v => some v | none => c.Namespace) ∧
      (∀ k : String, nodeMetaGet r.NodeMeta k =
        (match nodeMetaGet o.NodeMeta k with
         | some v => some v
         | none => nodeMetaGet c.NodeMeta k)) ∧
      (r.NodeMeta = none ↔ c.NodeMeta = none ∧ o.NodeMeta = none) := by
  obtain ⟨cre, csiv, cdc, cns, cnm⟩ := c
  obtain ⟨ore, osiv, odc, ons, onm⟩ := o
  simp only [CatalogServicesConditionConfig.Merge, isConditionNil, Copy_some]
  refine ⟨_, rfl, ?_, ?_, ?_, ?_, ?_, ?_⟩
  · cases ore <;> cases osiv <;> cases odc <;> cases ons <;> cases onm <;> cases cnm <;> rfl
  · cases ore <;> cases osiv <;> cases odc <;> cases ons <;> cases onm <;> cases cnm <;> rfl
  · cases ore <;> cases osiv <;> cases odc <;> cases ons <;> cases onm <;> cases cnm <;> rfl
  · cases ore <;> cases osiv <;> cases odc <;> cases ons <;> cases onm <;> cases cnm <;> rfl
  · intro k
    cases ore <;> cases osiv <;> cases odc <;> cases ons <;> cases onm <;> cases cnm <;>
      simp [nodeMetaGet, GoMap.lookup_assignAll, GoMap.get, GoMap.make]
  · cases ore <;> cases osiv <;> cases odc <;> cases ons <;> cases onm <;> cases cnm <;> simp

/-- C2: the absent condition is an identity of `Merge` up to `Copy`. For every
receiver `c` (nil or not) and every absent `o` (the nil interface or a nil pointer),
`c.Merge(o)` is `c.Copy()`; for a nil receiver and every interface value `p` on which
`Copy` can be called, `nil.Merge(p)` is `p.Copy()`; and `nil.Merge(o)` is nil for
every absent `o`. -/
theorem C2_merge_absent_identity (c : Option CatalogServicesConditionConfig)
    (o : ConditionConfig) (p : ConditionPtr) (ho : isConditionNil o = true) :
    CatalogServicesConditionConfig.Merge c o = CatalogServicesConditionConfig.Copy c ∧
    CatalogServicesConditionConfig.Merge none (some p) = p.Copy ∧
    CatalogServicesConditionConfig.Merge none o = none := by
  refine ⟨?_, ?_, ?_⟩
  · cases c with
    | none => simp [CatalogServicesConditionConfig.Merge, ho, CatalogServicesConditionConfig.Copy]
    | some cv => simp [CatalogServicesConditionConfig.Merge, ho]
  · match p with
    | ConditionPtr.catalogServices none =>
      simp [CatalogServicesConditionConfig.Merge, isConditionNil, ConditionPtr.Copy,
        CatalogServicesConditionConfig.Copy]
    | ConditionPtr.catalogServices (some v) =>
      simp [CatalogServicesConditionConfig.Merge, isConditionNil]
    | ConditionPtr.other none =>
      simp [CatalogServicesConditionConfig.Merge, isConditionNil, ConditionPtr.Copy,
        OtherConditionConfig.Copy]
    | ConditionPtr.other (some v) =>
      simp [CatalogServicesConditionConfig.Merge, isConditionNil]
  · simp [CatalogServicesConditionConfig.Merge, ho]

/-- C2 at a concrete input: a condition with a pattern and one metadata entry
merged with a nil catalog-services pointer, and the nil receiver merged with that
condition. -/
theorem C2_merge_absent_identity_witness :
    isConditionNil (some (ConditionPtr.catalogServices none)) = true ∧
    (CatalogServicesConditionConfig.Merge
        (some ⟨some "^web$", none, some "dc1", none, some (GoMap.assign GoMap.make "k" "v")⟩)
        (some (ConditionPtr.catalogServices none)) =
      CatalogServicesConditionConfig.Copy
        (some ⟨some "^web$", none, some "dc1", none, some (GoMap.assign GoMap.make "k" "v")⟩) ∧
    CatalogServicesConditionConfig.Merge none
        (some (ConditionPtr.catalogServices
          (some ⟨some "^web$", none, some "dc1", none, some (GoMap.assign GoMap.make "k" "v")⟩))) =
      ConditionPtr.Copy (ConditionPtr.catalogServices
          (some ⟨some "^web$", none, some "dc1", none, some (GoMap.assign GoMap.make "k" "v")⟩)) ∧
    CatalogServicesConditionConfig.Merge none (some (ConditionPtr.catalogServices none)) = none) :=
  ⟨rfl, C2_merge_absent_identity _ _ _ rfl⟩

/-! ## Finalize -/

/-- What `Finalize` leaves in a non-nil receiver, field by field. -/
theorem Finalize_some (c : CatalogServicesConditionConfig) (services : List String) :
    CatalogServicesConditionConfig.Finalize (some c) services =
      some
        { Regexp :=
            (match c.Regexp with
             | some v => some v
             | none =>
               if services = [] then none
               else some ("|".intercalate (services.map (fun n => "^" ++ n ++ "$"))))
          SourceIncludesVar := some (BoolVal c.SourceIncludesVar)
          Datacenter := some (StringVal c.Datacenter)
          Namespace := some (StringVal c.Namespace)
          NodeMeta :=
            (match c.NodeMeta with
             | some m => some m
             | none => some GoMap.make) } := by
  obtain ⟨re, siv, dc, ns, nm⟩ := c
  cases re <;> cases siv <;> cases dc <;> cases ns <;> cases nm <;>
    cases services <;>
    simp [CatalogServicesConditionConfig.Finalize, StringPtr, BoolPtr, BoolVal, StringVal,
      stringsJoin_eq_intercalate, anchorEach_eq_map]

/-- C3: for a non-absent condition whose Regexp is unset and a non-empty list of
service names, `Finalize` sets Regexp to the strings `"^" + name + "$"`, one per name
in the given order, joined by `"|"`. For the names api, web, db that is
`^api$|^web$|^db$`, and `GoString` of the finalized condition shows it as the value
of its Regexp field. -/
theorem C3_finalize_infers_pattern (c : CatalogServicesConditionConfig)
    (names : List String) (hre : c.Regexp = none) (hne : names ≠ []) :
    (∃ r : CatalogServicesConditionConfig,
      CatalogServicesConditionConfig.Finalize (some c) names = some r ∧
      r.Regexp = some ("|".intercalate (names.map (fun n => "^" ++ n ++ "$")))) ∧
    (∃ r : CatalogServicesConditionConfig,
      CatalogServicesConditionConfig.Finalize (some c) ["api", "web", "db"] = some r ∧
      r.Regexp = some "^api$|^web$|^db$") ∧
    (∃ rest : String,
      CatalogServicesConditionConfig.GoString
          (CatalogServicesConditionConfig.Finalize (some c) ["api", "web", "db"]) =
        "&CatalogServicesConditionConfig\x7bRegexp:^api$|^web$|^db$, SourceIncludesVar:" ++
          rest) := by
  refine ⟨?_, ?_, ?_⟩
  · refine ⟨_, Finalize_some c names, ?_⟩
    simp [hre, hne]
  · refine ⟨_, Finalize_some c ["api", "web", "db"], ?_⟩
    simp only [hre]
    decide
  · rw [Finalize_some c ["api", "web", "db"]]
    simp only [hre, CatalogServicesConditionConfig.GoString]
    refine ⟨fmtBool (BoolVal (some (BoolVal c.SourceIncludesVar))) ++ ", " ++
      "Datacenter:" ++ StringVal (some (StringVal c.Datacenter)) ++ ", " ++
      "Namespace:" ++ StringVal (some (StringVal c.Namespace)) ++ ", " ++
      "NodeMeta:" ++ fmtMap (match c.NodeMeta with
             | some m => some m
             | none => some GoMap.make) ++ "\x7d", ?_⟩
    have hpat : StringVal (if ["api", "web", "db"] = [] then none
        else some ("|".intercalate (List.map (fun n => "^" ++ n ++ "$") ["api", "web", "db"]))) =
        "^api$|^web$|^db$" := by decide
    rw [hpat]
    simp only [String.append_assoc]
    rfl

/-- C3 at a concrete input: the condition with every field unset and the names
api, web, db. -/
theorem C3_finalize_infers_pattern_witness :
    (⟨none, none, none, none, none⟩ : CatalogServicesConditionConfig).Regexp = none ∧
    ["api", "web", "db"] ≠ [] ∧
    ((∃ r : CatalogServicesConditionConfig,
      CatalogServicesConditionConfig.Finalize (some ⟨none, none, none, none, none⟩)
        ["api", "web", "db"] = some r ∧
      r.Regexp = some ("|".intercalate (["api", "web", "db"].map (fun n => "^" ++ n ++ "$")))) ∧
    (∃ r : CatalogServicesConditionConfig,
      CatalogServicesConditionConfig.Finalize (some ⟨none, none, none, none, none⟩)
        ["api", "web", "db"] = some r ∧
      r.Regexp = some "^api$|^web$|^db$") ∧
    (∃ rest : String,
      CatalogServicesConditionConfig.GoString
          (CatalogServicesConditionConfig.Finalize (some ⟨none, none, none, none, none⟩)
            ["api", "web", "db"]) =
        "&CatalogServicesConditionConfig\x7bRegexp:^api$|^web$|^db$, SourceIncludesVar:" ++
          rest)) :=
  ⟨rfl, by decide, C3_finalize_infers_pattern ⟨none, none, none, none, none⟩
    ["api", "web", "db"] rfl (by decide)⟩

/-- C4: `Finalize` only fills unset fields. For every non-absent condition `c` and
every list of service names, each of Regexp, SourceIncludesVar, Datacenter,
Namespace and NodeMeta that is set in `c` has the same value after `Finalize`; in
particular a Regexp set to the empty string stays the empty string, whatever the
list of names. On the absent condition `Finalize` does nothing. -/
theorem C4_finalize_keeps_set_fields (c : CatalogServicesConditionConfig)
    (services : List String) :
    (∃ r : CatalogServicesConditionConfig,
      CatalogServicesConditionConfig.Finalize (some c) services = some r ∧
      (∀ v, c.Regexp = some v → r.Regexp = some v) ∧
      (∀ v, c.SourceIncludesVar = some v → r.SourceIncludesVar = some v) ∧
      (∀ v, c.Datacenter = some v → r.Datacenter = some v) ∧
      (∀ v, c.Namespace = some v → r.Namespace = some v) ∧
      (∀ m, c.NodeMeta = some m → r.NodeMeta = some m) ∧
      (c.Regexp = some "" → r.Regexp = some "")) ∧
    CatalogServicesConditionConfig.Finalize none services = none := by
  refine ⟨⟨_, Finalize_some c services, ?_, ?_, ?_, ?_, ?_, ?_⟩, rfl⟩
  · intro v hv; simp [hv]
  · intro v hv; simp [hv, BoolVal]
  · intro v hv; simp [hv, StringVal]
  · intro v hv; simp [hv, StringVal]
  · intro m hm; simp [hm]
  · intro hv; simp [hv]

/-- C4 at a concrete input: a condition whose Regexp is the empty string and whose
datacenter is set, finalized with a non-empty list of names, keeps both. -/
theorem C4_finalize_keeps_set_fields_witness :
    ∃ r : CatalogServicesConditionConfig,
      CatalogServicesConditionConfig.Finalize (some ⟨some "", none, some "dc1", none, none⟩)
        ["api", "web"] = some r ∧
      r.Regexp = some "" ∧ r.Datacenter = some "dc1" :=
  match C4_finalize_keeps_set_fields ⟨some "", none, some "dc1", none, none⟩ ["api", "web"] with
  | ⟨⟨r, hr, hre, _, hdc, _, _, _⟩, _⟩ => ⟨r, hr, hre "" rfl, hdc "dc1" rfl⟩

/-- C5: after `Finalize` on a non-absent condition with any list of service names,
SourceIncludesVar, Datacenter, Namespace and NodeMeta are all set, with the values
false, the empty string, the empty string and the empty map where they were unset;
and Regexp is unset afterwards exactly when it was unset before and the list of
names is empty. -/
theorem C5_finalize_sets_all_but_regexp (c : CatalogServicesConditionConfig)
    (services : List String) :
    ∃ r : CatalogServicesConditionConfig,
      CatalogServicesConditionConfig.Finalize (some c) services = some r ∧
      r.SourceIncludesVar ≠ none ∧ r.Datacenter ≠ none ∧ r.Namespace ≠ none ∧
      r.NodeMeta ≠ none ∧
      (c.SourceIncludesVar = none → r.SourceIncludesVar = some false) ∧
      (c.Datacenter = none → r.Datacenter = some "") ∧
      (c.Namespace = none → r.Namespace = some "") ∧
      (c.NodeMeta = none → r.NodeMeta = some ∅) ∧
      (r.Regexp = none ↔ c.Regexp = none ∧ services = []) := by
  refine ⟨_, Finalize_some c services, ?_, ?_, ?_, ?_, ?_, ?_, ?_, ?_, ?_⟩
  · simp
  · simp
  · simp
  · cases c.NodeMeta <;> simp
  · intro h; simp [h, BoolVal]
  · intro h; simp [h, StringVal]
  · intro h; simp [h, StringVal]
  · intro h; simp [h, GoMap.make]
  · cases hre : c.Regexp with
    | none => by_cases hs : services = [] <;> simp [hs]
    | some v => simp

/-- C5 at a concrete input: the condition with every field unset, finalized with no
service name, has every field but Regexp set to its default and Regexp unset. -/
theorem C5_finalize_sets_all_but_regexp_witness :
    ∃ r : CatalogServicesConditionConfig,
      CatalogServicesConditionConfig.Finalize (some ⟨none, none, none, none, none⟩) [] =
        some r ∧
      r.SourceIncludesVar = some false ∧ r.Datacenter = some "" ∧ r.Namespace = some "" ∧
      r.NodeMeta = some ∅ ∧ r.Regexp = none :=
  match C5_finalize_sets_all_but_regexp ⟨none, none, none, none, none⟩ [] with
  | ⟨r, hr, _, _, _, _, hsiv, hdc, hns, hnm, hre⟩ =>
    ⟨r, hr, hsiv rfl, hdc rfl, hns rfl, hnm rfl, hre.mpr ⟨rfl, rfl⟩⟩

/-- C6: `Finalize` is idempotent. For every condition, absent or not, and every list
of service names, calling `Finalize` twice with the same list leaves the condition
equal, field by field, to calling it once. -/
theorem C6_finalize_idempotent (c : Option CatalogServicesConditionConfig)
    (services : List String) :
    CatalogServicesConditionConfig.Finalize
        (CatalogServicesConditionConfig.Finalize c services) services =
      CatalogServicesConditionConfig.Finalize c services := by
  cases c with
  | none => rfl
  | some cv =>
    rw [Finalize_some cv services, Finalize_some]
    obtain ⟨re, siv, dc, ns, nm⟩ := cv
    cases re <;> cases nm <;> by_cases hs : services = [] <;>
      simp [hs, BoolVal, StringVal]

/-! ## Validate -/

/-- C7: `Validate` returns an error exactly when the condition is non-absent and its
Regexp is unset or does not compile; the absent condition validates. With a
compiler that rejects the pattern `(` and accepts the empty pattern, as that of Go
does, a finalized condition with Regexp `(` fails, the compiler's message being part
of the error, and one with the empty Regexp succeeds. -/
theorem C7_validate_error_iff (regexpCompile : String → Except String Unit)
    (c : Option CatalogServicesConditionConfig) (cfg : CatalogServicesConditionConfig)
    (services : List String) (msg : String)
    (hbad : regexpCompile "(" = Except.error msg) (hok : regexpCompile "" = Except.ok ()) :
    ((∃ err, CatalogServicesConditionConfig.Validate regexpCompile c = Except.error err) ↔
      ∃ cv, c = some cv ∧
        (cv.Regexp = none ∨
          ∃ re err, cv.Regexp = some re ∧ regexpCompile re = Except.error err)) ∧
    CatalogServicesConditionConfig.Validate regexpCompile none = Except.ok () ∧
    (cfg.Regexp = some "(" →
      CatalogServicesConditionConfig.Validate regexpCompile
          (CatalogServicesConditionConfig.Finalize (some cfg) services) =
        Except.error ("unable to compile catalog-services regexp: " ++ msg)) ∧
    (cfg.Regexp = some "" →
      CatalogServicesConditionConfig.Validate regexpCompile
          (CatalogServicesConditionConfig.Finalize (some cfg) services) = Except.ok ()) := by
  refine ⟨?_, rfl, ?_, ?_⟩
  · cases c with
    | none => simp [CatalogServicesConditionConfig.Validate]
    | some cv =>
      cases hre : cv.Regexp with
      | none => simp [CatalogServicesConditionConfig.Validate, hre]
      | some re =>
        cases hc : regexpCompile re with
        | error err => simp [CatalogServicesConditionConfig.Validate, hre, StringVal, hc]
        | ok u => simp [CatalogServicesConditionConfig.Validate, hre, StringVal, hc]
  · intro hre
    rw [Finalize_some]
    simp [CatalogServicesConditionConfig.Validate, hre, StringVal, hbad]
  · intro hre
    rw [Finalize_some]
    simp [CatalogServicesConditionConfig.Validate, hre, StringVal, hok]

/-- C7 at a concrete input: with a compiler that rejects exactly the pattern `(`, a
condition with Regexp `(` finalized with one service name fails validation and a
condition with the empty Regexp passes. -/
theorem C7_validate_error_iff_witness :
    CatalogServicesConditionConfig.Validate
        (fun s => if s = "(" then Except.error "missing closing )" else Except.ok ())
        (CatalogServicesConditionConfig.Finalize (some ⟨some "(", none, none, none, none⟩)
          ["api"]) =
      Except.error ("unable to compile catalog-services regexp: " ++ "missing closing )") ∧
    CatalogServicesConditionConfig.Validate
        (fun s => if s = "(" then Except.error "missing closing )" else Except.ok ())
        (CatalogServicesConditionConfig.Finalize (some ⟨some "", none, none, none, none⟩)
          ["api"]) =
      Except.ok () :=
  ⟨(C7_validate_error_iff
      (fun s => if s = "(" then Except.error "missing closing )" else Except.ok ())
      none ⟨some "(", none, none, none, none⟩ ["api"] "missing closing )"
      rfl rfl).2.2.1 rfl,
   (C7_validate_error_iff
      (fun s => if s = "(" then Except.error "missing closing )" else Except.ok ())
      none ⟨some "", none, none, none, none⟩ ["api"] "missing closing )"
      rfl rfl).2.2.2 rfl⟩

/-- C8, the code at the failing input: for the single service name `a.b` and an unset
Regexp, `Finalize` sets Regexp to `^a.b$`, in which the dot is not escaped. -/
theorem C8_inferred_pattern_not_escaped :
    CatalogServicesConditionConfig.Finalize (some ⟨none, none, none, none, none⟩) ["a.b"] =
      some ⟨some "^a.b$", some false, some "", some "", some ∅⟩ := by
  decide

/-! ## Copy -/

/-- C9: `Copy` of a non-absent condition is a non-nil catalog-services condition
equal to the receiver field by field: each of Regexp, SourceIncludesVar, Datacenter
and Namespace is unset in the copy exactly when it is unset in the receiver and
holds the same value otherwise (so an empty-string Regexp stays set), NodeMeta is
nil in the copy exactly when it is nil in the receiver, and every key has the same
value in both maps. `Copy` of the absent condition is absent. -/
theorem C9_copy_fieldwise (c : CatalogServicesConditionConfig) :
    (∃ r : CatalogServicesConditionConfig,
      CatalogServicesConditionConfig.Copy (some c) =
        some (ConditionPtr.catalogServices (some r)) ∧
      r.Regexp = c.Regexp ∧ r.SourceIncludesVar = c.SourceIncludesVar ∧
      r.Datacenter = c.Datacenter ∧ r.Namespace = c.Namespace ∧
      (r.NodeMeta = none ↔ c.NodeMeta = none) ∧
      (∀ k : String, nodeMetaGet r.NodeMeta k = nodeMetaGet c.NodeMeta k) ∧
      r = c) ∧
    CatalogServicesConditionConfig.Copy none = none :=
  ⟨⟨c, Copy_some c, rfl, rfl, rfl, rfl, Iff.rfl, fun _ => rfl, rfl⟩, rfl⟩

/-! ## joinStrings -/

/-- C10: for every separator and every list of values, `joinStrings` returns the
non-empty values, in their original order, joined by the separator; it returns the
empty string when no value is given and when every value is empty; and
`joinStrings(",", "", "x", "", "y")` is `x,y`. -/
theorem C10_joinStrings_nonempty_joined (sep : String) (values : List String) :
    joinStringsFunc sep values =
      sep.intercalate (values.filter (fun v => decide (v ≠ ""))) ∧
    joinStringsFunc sep [] = "" ∧
    ((∀ v ∈ values, v = "") → joinStringsFunc sep values = "") ∧
    joinStringsFunc "," ["", "x", "", "y"] = "x,y" := by
  have hmain : joinStringsFunc sep values =
      sep.intercalate (values.filter (fun v => decide (v ≠ ""))) := by
    cases values with
    | nil => rfl
    | cons v vs =>
      simp only [joinStringsFunc, List.length_cons, Nat.succ_ne_zero, if_false]
      rw [cleaned_eq_filter, stringsJoin_eq_intercalate, List.nil_append]
  refine ⟨hmain, rfl, ?_, by decide⟩
  intro hall
  have hfil : values.filter (fun v => decide (v ≠ "")) = [] := by
    rw [List.filter_eq_nil_iff]
    intro v hv
    simp [hall v hv]
  rw [hmain, hfil]
  rfl

/-- C10 at a concrete input: three empty values joined by a comma give the empty
string. -/
theorem C10_joinStrings_nonempty_joined_witness : joinStringsFunc "," ["", "", ""] = "" :=
  (C10_joinStrings_nonempty_joined "," ["", "", ""]).2.2.1 (by decide)

/-! ## More on Merge -/

/-- What `Merge` returns for a non-nil receiver and a non-nil catalog-services
argument, field by field. -/
theorem Merge_some_some (c o : CatalogServicesConditionConfig) :
    CatalogServicesConditionConfig.Merge (some c)
        (some (ConditionPtr.catalogServices (some o))) =
      some (ConditionPtr.catalogServices (some
        { Regexp := (match o.Regexp with | some v => some v | none => c.Regexp)
          SourceIncludesVar :=
            (match o.SourceIncludesVar with | some v => some v | none => c.SourceIncludesVar)
          Datacenter := (match o.Datacenter with | some v => some v | none => c.Datacenter)
          Namespace := (match o.Namespace with | some v => some v | none => c.Namespace)
          NodeMeta :=
            (match o.NodeMeta with
             | none => c.NodeMeta
             | some om =>
               some (om ∪ (match c.NodeMeta with | none => ∅ | some cm => cm))) })) := by
  obtain ⟨cre, csiv, cdc, cns, cnm⟩ := c
  obtain ⟨ore, osiv, odc, ons, onm⟩ := o
  simp only [CatalogServicesConditionConfig.Merge, isConditionNil, Copy_some]
  cases ore <;> cases osiv <;> cases odc <;> cases ons <;> cases onm <;> cases cnm <;>
    simp [GoMap.assignAll_eq_union, GoMap.make]

/-- C13: for every non-absent catalog-services condition `c` and every non-absent
condition `o` of another concrete variant, `c.Merge(o)` is `c.Copy()`, a non-nil
catalog-services condition equal to `c` field by field: no field of `o` is applied,
and the result is a condition, not an error. -/
theorem C13_merge_other_variant (c : CatalogServicesConditionConfig)
    (o : OtherConditionConfig) :
    CatalogServicesConditionConfig.Merge (some c) (some (ConditionPtr.other (some o))) =
      CatalogServicesConditionConfig.Copy (some c) ∧
    CatalogServicesConditionConfig.Merge (some c) (some (ConditionPtr.other (some o))) =
      some (ConditionPtr.catalogServices (some c)) := by
  have h : CatalogServicesConditionConfig.Merge (some c)
      (some (ConditionPtr.other (some o))) = CatalogServicesConditionConfig.Copy (some c) := by
    simp [CatalogServicesConditionConfig.Merge, isConditionNil]
  exact ⟨h, h.trans (Copy_some c)⟩

/-- C17: `Merge` preserves finalization. For non-absent catalog-services conditions
`c` and `o`, if `c` has SourceIncludesVar, Datacenter, Namespace and NodeMeta all set,
or `o` has them all set, then so has `c.Merge(o)`; and the Regexp of `c.Merge(o)` is
unset exactly when it is unset in both `c` and `o`. -/
theorem C17_merge_preserves_finalized (c o : CatalogServicesConditionConfig)
    (hfin : (c.SourceIncludesVar ≠ none ∧ c.Datacenter ≠ none ∧ c.Namespace ≠ none ∧
        c.NodeMeta ≠ none) ∨
      (o.SourceIncludesVar ≠ none ∧ o.Datacenter ≠ none ∧ o.Namespace ≠ none ∧
        o.NodeMeta ≠ none)) :
    ∃ r : CatalogServicesConditionConfig,
      CatalogServicesConditionConfig.Merge (some c)
          (some (ConditionPtr.catalogServices (some o))) =
        some (ConditionPtr.catalogServices (some r)) ∧
      r.SourceIncludesVar ≠ none ∧ r.Datacenter ≠ none ∧ r.Namespace ≠ none ∧
      r.NodeMeta ≠ none ∧
      (r.Regexp = none ↔ c.Regexp = none ∧ o.Regexp = none) := by
  refine ⟨_, Merge_some_some c o, ?_⟩
  obtain ⟨cre, csiv, cdc, cns, cnm⟩ := c
  obtain ⟨ore, osiv, odc, ons, onm⟩ := o
  cases ore <;> cases osiv <;> cases odc <;> cases ons <;> cases onm <;>
    cases cre <;> cases csiv <;> cases cdc <;> cases cns <;> cases cnm <;>
    simp at hfin ⊢

/-- C17 at a concrete input: an unfinalized override, with only a datacenter set,
merged over a finalized base. -/
theorem C17_merge_preserves_finalized_witness :
    ∃ r : CatalogServicesConditionConfig,
      CatalogServicesConditionConfig.Merge
          (some ⟨none, some false, some "", some "", some ∅⟩)
          (some (ConditionPtr.catalogServices (some ⟨none, none, some "dc1", none, none⟩))) =
        some (ConditionPtr.catalogServices (some r)) ∧
      r.SourceIncludesVar ≠ none ∧ r.Datacenter ≠ none ∧ r.Namespace ≠ none ∧
      r.NodeMeta ≠ none ∧
      (r.Regexp = none ↔
        (⟨none, some false, some "", some "", some ∅⟩ :
            CatalogServicesConditionConfig).Regexp = none ∧
          (⟨none, none, some "dc1", none, none⟩ :
            CatalogServicesConditionConfig).Regexp = none) :=
  C17_merge_preserves_finalized ⟨none, some false, some "", some "", some ∅⟩
    ⟨none, none, some "dc1", none, none⟩ (Or.inl (by simp))

/-- The nil catalog-services pointer is an absent argument. -/
theorem isConditionNil_toCondition (p : Option CatalogServicesConditionConfig) :
    isConditionNil (CatalogServicesConditionConfig.toCondition p) = p.isNone := by
  cases p <;> rfl

/-- Associativity of `Merge` on three non-absent conditions. -/
theorem Merge_assoc_some (a b c : CatalogServicesConditionConfig) :
    ConditionConfig.Merge
        (CatalogServicesConditionConfig.Merge (some a)
          (CatalogServicesConditionConfig.toCondition (some b)))
        (CatalogServicesConditionConfig.toCondition (some c)) =
      some (CatalogServicesConditionConfig.Merge (some a)
        (CatalogServicesConditionConfig.Merge (some b)
          (CatalogServicesConditionConfig.toCondition (some c)))) := by
  simp only [CatalogServicesConditionConfig.toCondition, Merge_some_some,
    ConditionConfig.Merge]
  obtain ⟨are, asiv, adc, ans, anm⟩ := a
  obtain ⟨bre, bsiv, bdc, bns, bnm⟩ := b
  obtain ⟨cre, csiv, cdc, cns, cnm⟩ := c
  simp only [Option.some.injEq, ConditionPtr.catalogServices.injEq,
    CatalogServicesConditionConfig.mk.injEq]
  refine ⟨?_, ?_, ?_, ?_, ?_⟩
  · cases are <;> cases bre <;> cases cre <;> rfl
  · cases asiv <;> cases bsiv <;> cases csiv <;> rfl
  · cases adc <;> cases bdc <;> cases cdc <;> rfl
  · cases ans <;> cases bns <;> cases cns <;> rfl
  · cases anm <;> cases bnm <;> cases cnm <;>
      simp [Finmap.union_assoc, Finmap.union_empty]

/-- `Merge` with an absent argument, nil pointer or nil interface: a copy of the
receiver. -/
theorem Merge_absent_arg (c : CatalogServicesConditionConfig) :
    CatalogServicesConditionConfig.Merge (some c)
        (CatalogServicesConditionConfig.toCondition none) =
      CatalogServicesConditionConfig.toCondition (some c) ∧
    CatalogServicesConditionConfig.Merge (some c) none =
      CatalogServicesConditionConfig.toCondition (some c) := by
  simp [CatalogServicesConditionConfig.Merge, CatalogServicesConditionConfig.toCondition,
    isConditionNil, Copy_some]

/-- `Merge` on the nil receiver with a non-absent argument: a copy of the argument. -/
theorem Merge_absent_receiver (o : CatalogServicesConditionConfig) :
    CatalogServicesConditionConfig.Merge none
        (CatalogServicesConditionConfig.toCondition (some o)) =
      CatalogServicesConditionConfig.toCondition (some o) := by
  simp [CatalogServicesConditionConfig.Merge, CatalogServicesConditionConfig.toCondition,
    isConditionNil, ConditionPtr.Copy, Copy_some]

/-- `Merge` of two non-absent conditions is a non-absent catalog-services condition. -/
theorem Merge_some_some_toCondition (c o : CatalogServicesConditionConfig) :
    ∃ r : CatalogServicesConditionConfig,
      CatalogServicesConditionConfig.Merge (some c)
          (CatalogServicesConditionConfig.toCondition (some o)) =
        CatalogServicesConditionConfig.toCondition (some r) :=
  ⟨_, Merge_some_some c o⟩

/-- C16, as amended: for catalog-services conditions `a`, `b`, `c`, each possibly
absent but `a` and `b` not both absent, `a.Merge(b).Merge(c)` has a value and it is
equal, field by field, to `a.Merge(b.Merge(c))`, including which fields are unset
and the contents of NodeMeta. -/
theorem C16_merge_assoc (a b c : Option CatalogServicesConditionConfig)
    (hab : a ≠ none ∨ b ≠ none) :
    ConditionConfig.Merge
        (CatalogServicesConditionConfig.Merge a
          (CatalogServicesConditionConfig.toCondition b))
        (CatalogServicesConditionConfig.toCondition c) =
      some (CatalogServicesConditionConfig.Merge a
        (CatalogServicesConditionConfig.Merge b
          (CatalogServicesConditionConfig.toCondition c))) := by
  match a, b, c, hab with
  | some a, some b, some c, _ => exact Merge_assoc_some a b c
  | some a, some b, none, _ =>
    obtain ⟨r, hr⟩ := Merge_some_some_toCondition a b
    rw [hr, (Merge_absent_arg b).1, hr]
    show some _ = some _
    rw [(Merge_absent_arg r).1]
  | some a, none, some c, _ =>
    rw [(Merge_absent_arg a).1, Merge_absent_receiver c]
    rfl
  | some a, none, none, _ =>
    rw [(Merge_absent_arg a).1]
    show some _ = some _
    rw [(Merge_absent_arg a).1]
    have hnil : CatalogServicesConditionConfig.Merge none
        (CatalogServicesConditionConfig.toCondition none) = none := rfl
    rw [hnil, (Merge_absent_arg a).2]
  | none, some b, some c, _ =>
    obtain ⟨r, hr⟩ := Merge_some_some_toCondition b c
    rw [Merge_absent_receiver b, hr, Merge_absent_receiver r]
    show some _ = some _
    rw [hr]
  | none, some b, none, _ =>
    rw [Merge_absent_receiver b, (Merge_absent_arg b).1, Merge_absent_receiver b]
    show some _ = some _
    rw [(Merge_absent_arg b).1]
  | none, none, _, hab => simp at hab

/-- C16 at a concrete input: an absent base, an override with a pattern and a
metadata entry, and a second override with a datacenter and the same metadata key. -/
theorem C16_merge_assoc_witness :
    ((none : Option CatalogServicesConditionConfig) ≠ none ∨
      some (⟨some "^web$", none, none, none, some (GoMap.assign GoMap.make "k" "v")⟩ :
        CatalogServicesConditionConfig) ≠ none) ∧
    ConditionConfig.Merge
        (CatalogServicesConditionConfig.Merge none
          (CatalogServicesConditionConfig.toCondition
            (some ⟨some "^web$", none, none, none, some (GoMap.assign GoMap.make "k" "v")⟩)))
        (CatalogServicesConditionConfig.toCondition
          (some ⟨none, none, some "dc1", none, some (GoMap.assign GoMap.make "k" "w")⟩)) =
      some (CatalogServicesConditionConfig.Merge none
        (CatalogServicesConditionConfig.Merge
          (some ⟨some "^web$", none, none, none, some (GoMap.assign GoMap.make "k" "v")⟩)
          (CatalogServicesConditionConfig.toCondition
            (some ⟨none, none, some "dc1", none, some (GoMap.assign GoMap.make "k" "w")⟩)))) :=
  ⟨Or.inr (by simp), C16_merge_assoc _ _ _ (Or.inr (by simp))⟩

/-- C16 as stated fails when `a` and `b` are both absent: `a.Merge(b)` is the nil
interface, so the call `a.Merge(b).Merge(c)` has no value, while `a.Merge(b.Merge(c))`
is a copy of `c`. -/
theorem C16_merge_assoc_counterexample :
    CatalogServicesConditionConfig.Merge none
        (CatalogServicesConditionConfig.toCondition none) = none ∧
    ConditionConfig.Merge
        (CatalogServicesConditionConfig.Merge none
          (CatalogServicesConditionConfig.toCondition none))
        (CatalogServicesConditionConfig.toCondition
          (some ⟨some "^web$", none, none, none, none⟩)) = none ∧
    CatalogServicesConditionConfig.Merge none
        (CatalogServicesConditionConfig.Merge none
          (CatalogServicesConditionConfig.toCondition
            (some ⟨some "^web$", none, none, none, none⟩))) =
      some (ConditionPtr.catalogServices (some ⟨some "^web$", none, none, none, none⟩)) ∧
    ¬ (ConditionConfig.Merge
        (CatalogServicesConditionConfig.Merge none
          (CatalogServicesConditionConfig.toCondition none))
        (CatalogServicesConditionConfig.toCondition
          (some ⟨some "^web$", none, none, none, none⟩)) =
      some (CatalogServicesConditionConfig.Merge none
        (CatalogServicesConditionConfig.Merge none
          (CatalogServicesConditionConfig.toCondition
            (some ⟨some "^web$", none, none, none, none⟩))))) := by
  decide

/-! ## GoString -/

/-- The nil map and the empty map print alike. -/
theorem fmtMap_make : fmtMap (some GoMap.make) = fmtMap none := by
  simp only [fmtMap, GoMap.make, Finmap.keys_empty, Finset.sort_empty, List.map_nil,
    stringsJoin]
  decide

/-- How a non-nil map prints: its keys in strictly increasing order, each followed
by a colon and its value, separated by one blank, between `map[` and `]`. -/
theorem fmtMap_sorted (m : GoMap) :
    ∃ ks : List String,
      ks.Sorted (fun a b => a < b) ∧ (∀ k, k ∈ ks ↔ (GoMap.get m k).isSome = true) ∧
      fmtMap (some m) =
        "map[" ++ " ".intercalate (ks.map (fun k => k ++ ":" ++ StringVal (GoMap.get m k)))
          ++ "]" := by
  refine ⟨m.keys.sort (fun a b => a ≤ b), Finset.sort_sorted_lt _, ?_, ?_⟩
  · intro k
    rw [Finset.mem_sort, Finmap.mem_keys, GoMap.get, Finmap.lookup_isSome]
  · simp only [fmtMap, stringsJoin_eq_intercalate]

/-- A map filled with the key `b` and then the key `a` prints `a` first. -/
theorem fmtMap_two_keys :
    fmtMap (some (GoMap.assign (GoMap.assign GoMap.make "b" "1") "a" "2")) = "map[a:2 b:1]" := by
  have hkeys : (Finmap.insert "a" "2" (Finmap.insert "b" "1"
      (∅ : Finmap (fun _ : String => String)))).keys = insert "a" {"b"} := by
    ext k
    simp [Finmap.mem_keys, Finmap.mem_insert, Finmap.not_mem_empty]
  have hsort : Finset.sort (fun a b : String => a ≤ b) (insert "a" {"b"}) = ["a", "b"] := by
    rw [Finset.sort_insert, Finset.sort_singleton]
    · intro b hb
      rw [Finset.mem_singleton] at hb
      subst hb
      rw [String.le_iff_toList_le]
      decide
    · simp
  have ha : Finmap.lookup "a" (Finmap.insert "a" "2" (Finmap.insert "b" "1"
      (∅ : Finmap (fun _ : String => String)))) = some "2" := Finmap.lookup_insert _
  have hb : Finmap.lookup "b" (Finmap.insert "a" "2" (Finmap.insert "b" "1"
      (∅ : Finmap (fun _ : String => String)))) = some "1" := by
    rw [Finmap.lookup_insert_of_ne _ (by decide)]
    exact Finmap.lookup_insert _
  simp only [fmtMap, GoMap.get, GoMap.assign, GoMap.make, hkeys, hsort, List.map, ha, hb]
  decide

/-- The displayed value of a string pointer: its value, or the empty string. -/
theorem StringVal_eq_getD (x : Option String) : StringVal x = x.getD "" := by
  cases x <;> rfl

/-- The displayed value of a bool pointer, as `fmt` prints it. -/
theorem fmtBool_BoolVal (x : Option Bool) :
    fmtBool (BoolVal x) = if x = some true then "true" else "false" := by
  cases x with
  | none => rfl
  | some b => cases b <;> rfl

/-- What `GoString` prints for a non-absent condition: the displayed value of each
field, and the entries of NodeMeta in strictly increasing order of the keys. -/
theorem GoString_some (c : CatalogServicesConditionConfig) :
    ∃ ks : List String,
      ks.Sorted (fun a b => a < b) ∧
      (∀ k, k ∈ ks ↔ (nodeMetaGet c.NodeMeta k).isSome = true) ∧
      CatalogServicesConditionConfig.GoString (some c) =
        "&CatalogServicesConditionConfig\x7b" ++
        "Regexp:" ++ c.Regexp.getD "" ++ ", " ++
        "SourceIncludesVar:" ++
          (if c.SourceIncludesVar = some true then "true" else "false") ++ ", " ++
        "Datacenter:" ++ c.Datacenter.getD "" ++ ", " ++
        "Namespace:" ++ c.Namespace.getD "" ++ ", " ++
        "NodeMeta:" ++
          ("map[" ++ " ".intercalate
            (ks.map (fun k => k ++ ":" ++ (nodeMetaGet c.NodeMeta k).getD "")) ++ "]") ++
        "\x7d" := by
  obtain ⟨re, siv, dc, ns, nm⟩ := c
  cases nm with
  | none =>
    refine ⟨[], List.sorted_nil, ?_, ?_⟩
    · intro k
      simp [nodeMetaGet]
    · have hnil : fmtMap none = "map[" ++ " ".intercalate
          (([] : List String).map (fun k => k ++ ":" ++ (nodeMetaGet none k).getD "")) ++
          "]" := by decide
      simp only [CatalogServicesConditionConfig.GoString, fmtBool_BoolVal,
        StringVal_eq_getD, hnil]
  | some m =>
    obtain ⟨ks, hsorted, hmem, hfmt⟩ := fmtMap_sorted m
    refine ⟨ks, hsorted, hmem, ?_⟩
    simp only [CatalogServicesConditionConfig.GoString, fmtBool_BoolVal,
      StringVal_eq_getD, hfmt, nodeMetaGet]

/-- C14: `GoString` resolves unset fields to their displayed defaults and prints
nothing but the field values. For every non-absent condition `c`, `GoString` of `c`
equals `GoString` of `c` after `Finalize` with no service name. Its output is the
fixed frame of the format with, in turn, the Regexp, the Datacenter and the Namespace,
each the empty string when unset, SourceIncludesVar as `true` or `false`, `false` when
unset, and NodeMeta as `map[...]` holding one `key:value` per key of the map, in
strictly increasing order of the keys, and nothing for a nil or empty map. So the
condition with every field unset prints `Regexp:, SourceIncludesVar:false,
Datacenter:, Namespace:, NodeMeta:map[]`, and a condition with every field set and a
NodeMeta filled with `b` and then `a` prints them as `map[a:2 b:1]`. -/
theorem C14_goString_resolves_defaults (c : CatalogServicesConditionConfig) :
    CatalogServicesConditionConfig.GoString (some c) =
      CatalogServicesConditionConfig.GoString
        (CatalogServicesConditionConfig.Finalize (some c) []) ∧
    (∃ ks : List String,
      ks.Sorted (fun a b => a < b) ∧
      (∀ k, k ∈ ks ↔ (nodeMetaGet c.NodeMeta k).isSome = true) ∧
      CatalogServicesConditionConfig.GoString (some c) =
        "&CatalogServicesConditionConfig\x7b" ++
        "Regexp:" ++ c.Regexp.getD "" ++ ", " ++
        "SourceIncludesVar:" ++
          (if c.SourceIncludesVar = some true then "true" else "false") ++ ", " ++
        "Datacenter:" ++ c.Datacenter.getD "" ++ ", " ++
        "Namespace:" ++ c.Namespace.getD "" ++ ", " ++
        "NodeMeta:" ++
          ("map[" ++ " ".intercalate
            (ks.map (fun k => k ++ ":" ++ (nodeMetaGet c.NodeMeta k).getD "")) ++ "]") ++
        "\x7d") ∧
    CatalogServicesConditionConfig.GoString (some ⟨none, none, none, none, none⟩) =
      "&CatalogServicesConditionConfig\x7bRegexp:, SourceIncludesVar:false, Datacenter:, Namespace:, NodeMeta:map[]\x7d" ∧
    CatalogServicesConditionConfig.GoString
        (some ⟨some "^web$", some true, some "dc1", some "ns",
          some (GoMap.assign (GoMap.assign GoMap.make "b" "1") "a" "2")⟩) =
      "&CatalogServicesConditionConfig\x7bRegexp:^web$, SourceIncludesVar:true, Datacenter:dc1, Namespace:ns, NodeMeta:map[a:2 b:1]\x7d" := by
  refine ⟨?_, GoString_some c, by decide, ?_⟩
  · rw [Finalize_some]
    obtain ⟨re, siv, dc, ns, nm⟩ := c
    cases re <;> cases siv <;> cases dc <;> cases ns <;> cases nm <;>
      simp [CatalogServicesConditionConfig.GoString, StringVal, BoolVal, fmtMap_make]
  · simp only [CatalogServicesConditionConfig.GoString, fmtMap_two_keys]
    decide

/-- C14 at a concrete input: a condition with only Regexp set prints the same before
and after `Finalize` with no service name, with the defaults in the unset fields. -/
theorem C14_goString_resolves_defaults_witness :
    CatalogServicesConditionConfig.GoString (some ⟨some "^web$", none, none, none, none⟩) =
      CatalogServicesConditionConfig.GoString
        (CatalogServicesConditionConfig.Finalize (some ⟨some "^web$", none, none, none, none⟩)
          []) ∧
    CatalogServicesConditionConfig.GoString (some ⟨some "^web$", none, none, none, none⟩) =
      "&CatalogServicesConditionConfig\x7bRegexp:^web$, SourceIncludesVar:false, Datacenter:, Namespace:, NodeMeta:map[]\x7d" :=
  ⟨(C14_goString_resolves_defaults ⟨some "^web$", none, none, none, none⟩).1, by decide⟩

/-! ## Joined strings, character by character -/

/-- The characters of the accumulator loop of `String.intercalate`. -/
theorem intercalate_go_data (sep : String) (rest : List String) (acc : String) :
    (String.intercalate.go acc sep rest).data = acc.data ++ joinTail sep.data rest := by
  induction rest generalizing acc with
  | nil => simp [String.intercalate.go, joinTail]
  | cons a t ih =>
    simp only [String.intercalate.go, joinTail]
    rw [ih, String.data_append, String.data_append]
    simp [List.append_assoc]

/-- The characters of a non-empty list of strings joined by `sep`. -/
theorem intercalate_cons_data (sep a : String) (rest : List String) :
    (sep.intercalate (a :: rest)).data = a.data ++ joinTail sep.data rest := by
  simp only [String.intercalate]
  exact intercalate_go_data sep rest a

/-- The same characters, joined as lists. -/
theorem list_intercalate_cons (sep : List Char) (a : String) (rest : List String) :
    sep.intercalate (a.data :: rest.map String.data) = a.data ++ joinTail sep rest := by
  induction rest generalizing a with
  | nil => simp [List.intercalate, joinTail]
  | cons b t ih =>
    have h := ih b
    simp only [List.intercalate, List.map_cons, List.intersperse_cons_cons,
      List.flatten_cons, joinTail] at h ⊢
    rw [h]
    simp [List.append_assoc]

/-- Joining strings and then taking the characters is joining the lists of
characters. -/
theorem intercalate_data (sep : String) (l : List String) :
    (sep.intercalate l).data = sep.data.intercalate (l.map String.data) := by
  cases l with
  | nil => rfl
  | cons a rest => rw [intercalate_cons_data, List.map_cons, list_intercalate_cons]

/-- What `joinStringsFunc` returns, as in C10: the non-empty values joined. -/
theorem joinStringsFunc_eq (sep : String) (values : List String) :
    joinStringsFunc sep values =
      sep.intercalate (values.filter (fun v => decide (v ≠ ""))) := by
  cases values with
  | nil => rfl
  | cons v vs =>
    simp only [joinStringsFunc, List.length_cons, Nat.succ_ne_zero, if_false]
    rw [cleaned_eq_filter, stringsJoin_eq_intercalate, List.nil_append]

/-- C18: the output of `joinStrings` can be split back. For a separator of one
character `c` and values none of which contains `c`, at least one of them non-empty,
splitting `joinStrings(c, values...)` on `c` gives exactly the non-empty values in
their original order; so no piece of the split is empty, that is the output has no
leading, trailing or doubled separator. -/
theorem C18_joinStrings_split_back (c : Char) (values : List String)
    (hfree : ∀ v ∈ values, c ∉ v.data) (hne : ∃ v ∈ values, v ≠ "") :
    stringsSplit (joinStringsFunc (String.singleton c) values) c =
      values.filter (fun v => decide (v ≠ "")) ∧
    ∀ piece ∈ stringsSplit (joinStringsFunc (String.singleton c) values) c, piece ≠ "" := by
  have hsplit : stringsSplit (joinStringsFunc (String.singleton c) values) c =
      values.filter (fun v => decide (v ≠ "")) := by
    have hdata : (String.singleton c).data = [c] := rfl
    rw [stringsSplit, joinStringsFunc_eq, intercalate_data, hdata,
      List.splitOn_intercalate]
    · rw [List.map_map]
      have hid : (String.mk ∘ String.data) = id := by
        funext x
        rfl
      rw [hid, List.map_id]
    · intro l hl
      obtain ⟨v, hv, rfl⟩ := List.mem_map.mp hl
      exact hfree v (List.mem_filter.mp hv).1
    · obtain ⟨v, hv, hvne⟩ := hne
      intro hnil
      have hmem : v ∈ values.filter (fun v => decide (v ≠ "")) :=
        List.mem_filter.mpr ⟨hv, by simpa using hvne⟩
      rw [List.map_eq_nil_iff] at hnil
      rw [hnil] at hmem
      exact List.not_mem_nil _ hmem
  refine ⟨hsplit, ?_⟩
  intro piece hp
  rw [hsplit] at hp
  simpa using (List.mem_filter.mp hp).2

/-- C18 at a concrete input: the values of the example of C10, joined by a comma and
split on it. -/
theorem C18_joinStrings_split_back_witness :
    (∀ v ∈ ["", "x", "", "y"], ',' ∉ v.data) ∧ (∃ v ∈ ["", "x", "", "y"], v ≠ "") ∧
    stringsSplit (joinStringsFunc (String.singleton ',') ["", "x", "", "y"]) ',' =
      ["x", "y"] :=
  ⟨by decide, by decide,
    (C18_joinStrings_split_back ',' ["", "x", "", "y"] (by decide) (by decide)).1⟩

/-! ## Sorting strings -/

instance goStringLe.isTotal : IsTotal String goStringLe :=
  ⟨fun a b => le_total a.data b.data⟩

instance goStringLe.isTrans : IsTrans String goStringLe :=
  ⟨fun a b c hab hbc => le_trans (a := a.data) (b := b.data) (c := c.data) hab hbc⟩

instance goStringLe.isAntisymm : IsAntisymm String goStringLe :=
  ⟨fun a b hab hba => String.ext (le_antisymm (a := a.data) (b := b.data) hab hba)⟩

/-- The order of Go on strings is the order of `String`. -/
theorem goStringLe_iff (a b : String) : goStringLe a b ↔ a ≤ b := by
  unfold goStringLe
  rw [String.le_iff_toList_le]
  rfl

/-- The slice `sort.Strings` leaves is a rearrangement of the one it was given. -/
theorem sortStrings_perm (t : List String) : (sortStrings t).Perm t :=
  List.perm_insertionSort goStringLe t

/-- The slice `sort.Strings` leaves is in increasing order. -/
theorem sortStrings_sorted (t : List String) : (sortStrings t).Sorted goStringLe :=
  List.sorted_insertionSort goStringLe t

/-- Sorting does not depend on the order of the input. -/
theorem sortStrings_eq_of_perm (t u : List String) (h : t.Perm u) :
    sortStrings t = sortStrings u :=
  List.eq_of_perm_of_sorted
    (((sortStrings_perm t).trans h).trans (sortStrings_perm u).symm)
    (sortStrings_sorted t) (sortStrings_sorted u)

/-! ## HCLServiceTags -/

/-- The loop filling `t` index by index, started with `done` already filled in front
of the slots `rest` still to fill. -/
theorem quoteEach_loop (todo done rest : List String) (hlen : rest.length = todo.length) :
    (todo.enumFrom done.length).foldl (fun t p => t.set p.1 ("\"" ++ p.2 ++ "\""))
        (done ++ rest) =
      done ++ todo.map (fun s => "\"" ++ s ++ "\"") := by
  induction todo generalizing done rest with
  | nil =>
    have hrest : rest = [] := List.length_eq_zero.mp hlen
    simp [hrest]
  | cons x xs ih =>
    match rest, hlen with
    | r :: rs, hlen =>
      have hlen2 : rs.length = xs.length := by simpa using hlen
      have hstep : (done ++ r :: rs).set done.length ("\"" ++ x ++ "\"") =
          (done ++ ["\"" ++ x ++ "\""]) ++ rs := by
        rw [List.set_append_right _ _ (Nat.le_refl _)]
        simp
      have hnext := ih (done ++ ["\"" ++ x ++ "\""]) rs hlen2
      simp only [List.length_append, List.length_singleton] at hnext
      simp only [List.enumFrom_cons, List.foldl_cons, hstep, hnext, List.map_cons]
      simp

/-- The slice `t` built by `hclServiceTagsFunc` holds each tag between double quotes,
in the order of the tags. -/
theorem quoteEach_eq_map (tags : List String) :
    quoteEach tags = tags.map (fun s => "\"" ++ s ++ "\"") := by
  have h := quoteEach_loop tags [] (List.replicate tags.length "") (by simp)
  simpa [quoteEach, List.enum] using h

/-- What `hclServiceTagsFunc` returns: the quoted tags, sorted as quoted, joined. -/
theorem hclServiceTagsFunc_eq (tags : List String) :
    hclServiceTagsFunc tags =
      "[" ++ ", ".intercalate (sortStrings (tags.map (fun s => "\"" ++ s ++ "\""))) ++ "]" := by
  simp only [hclServiceTagsFunc, quoteEach_eq_map, stringsJoin_eq_intercalate]

/-- C12: the rendering of `HCLServiceTags` does not depend on the order of its input.
For two lists of tags that are permutations of each other the function returns the
same string, byte for byte. -/
theorem C12_hclServiceTags_order_independent (tags tags2 : List String)
    (hperm : tags.Perm tags2) :
    hclServiceTagsFunc tags = hclServiceTagsFunc tags2 := by
  rw [hclServiceTagsFunc_eq, hclServiceTagsFunc_eq,
    sortStrings_eq_of_perm _ _ (hperm.map (fun s => "\"" ++ s ++ "\""))]

/-- C12 at a concrete input: three tags, one of them twice, in two orders. -/
theorem C12_hclServiceTags_order_independent_witness :
    ["web", "v2", "web", "blue"].Perm ["blue", "web", "web", "v2"] ∧
    hclServiceTagsFunc ["web", "v2", "web", "blue"] =
      hclServiceTagsFunc ["blue", "web", "web", "v2"] :=
  ⟨by decide, C12_hclServiceTags_order_independent _ _ (by decide)⟩

/-- Appending a character `q` to both of two lists keeps their strict order, when no
character of the greater list is below `q`. -/
theorem lt_append_char (q : Char) (x y : List Char) (hy : ∀ c ∈ y, q ≤ c) (hlt : x < y) :
    x ++ [q] < y ++ [q] := by
  induction x generalizing y with
  | nil =>
    cases y with
    | nil => exact absurd hlt (lt_irrefl _)
    | cons b y2 =>
      have hb : q ≤ b := hy b (List.mem_cons_self _ _)
      rcases lt_or_eq_of_le hb with h | h
      · exact List.Lex.rel h
      · subst h
        refine List.Lex.cons ?_
        cases y2 with
        | nil => exact List.Lex.nil
        | cons d y3 => exact List.Lex.nil
  | cons a x2 ih =>
    cases y with
    | nil => cases hlt
    | cons b y2 =>
      cases hlt with
      | cons h =>
        exact List.Lex.cons (ih y2 (fun c hc => hy c (List.mem_cons_of_mem _ hc)) h)
      | rel h => exact List.Lex.rel h

/-- The characters of a tag between double quotes; the double quote is the
character of code point 34. -/
theorem quoted_data (x : String) :
    ("\"" ++ x ++ "\"").data = Char.ofNat 34 :: (x.data ++ [Char.ofNat 34]) := by
  rw [String.data_append, String.data_append]
  rfl

/-- Wrapping in double quotes keeps the order of two tags, when no character of the
greater tag is below the double quote. -/
theorem quoted_le (x y : String) (hy : ∀ c ∈ y.data, Char.ofNat 34 ≤ c)
    (hle : goStringLe x y) : goStringLe ("\"" ++ x ++ "\"") ("\"" ++ y ++ "\"") := by
  unfold goStringLe at hle ⊢
  rw [quoted_data, quoted_data]
  rcases lt_or_eq_of_le hle with h | h
  · exact le_of_lt (List.Lex.cons (lt_append_char _ _ _ hy h))
  · rw [h]

/-- Sorting the quoted tags is quoting the sorted tags, when no tag has a character
below the double quote. -/
theorem sortStrings_map_quoted (tags : List String)
    (hlow : ∀ t ∈ tags, ∀ c ∈ t.data, Char.ofNat 34 ≤ c) :
    sortStrings (tags.map (fun s => "\"" ++ s ++ "\"")) =
      (sortStrings tags).map (fun s => "\"" ++ s ++ "\"") := by
  refine List.eq_of_perm_of_sorted
    ((sortStrings_perm _).trans ((sortStrings_perm tags).symm.map _))
    (sortStrings_sorted _) ?_
  refine List.pairwise_map.mpr (List.Pairwise.imp_of_mem ?_ (sortStrings_sorted tags))
  intro a b _ hb hab
  exact quoted_le a b (hlow b ((sortStrings_perm tags).mem_iff.mp hb)) hab

/-- C11, as amended: for every list of tags, `HCLServiceTags` returns `[`, then the
tags each wrapped in double quotes, in lexicographic order of the wrapped tags,
separated by a comma and a blank, then `]`. When no tag contains a character below
the double quote (a control character, a blank or an exclamation mark), that is the
lexicographic order of the tags themselves. The tags b, a give `["a", "b"]` and the
empty list gives `[]`. -/
theorem C11_hclServiceTags_sorted_quoted (tags : List String) :
    hclServiceTagsFunc tags =
      "[" ++ ", ".intercalate (sortStrings (tags.map (fun s => "\"" ++ s ++ "\""))) ++ "]" ∧
    ((∀ t ∈ tags, ∀ c ∈ t.data, Char.ofNat 34 ≤ c) →
      hclServiceTagsFunc tags = hclServiceTagsSpec tags) ∧
    hclServiceTagsFunc ["b", "a"] = "[\"a\", \"b\"]" ∧
    hclServiceTagsFunc [] = "[]" := by
  refine ⟨hclServiceTagsFunc_eq tags, ?_, by decide, by decide⟩
  intro hlow
  rw [hclServiceTagsFunc_eq, sortStrings_map_quoted tags hlow, hclServiceTagsSpec]

/-- C11 at a concrete input: two plain tags are rendered in the order of the tags. -/
theorem C11_hclServiceTags_sorted_quoted_witness :
    (∀ t ∈ ["web", "api"], ∀ c ∈ t.data, Char.ofNat 34 ≤ c) ∧
    hclServiceTagsFunc ["web", "api"] = hclServiceTagsSpec ["web", "api"] ∧
    hclServiceTagsSpec ["web", "api"] = "[\"api\", \"web\"]" :=
  ⟨by decide, (C11_hclServiceTags_sorted_quoted ["web", "api"]).2.1 (by decide), by decide⟩

/-- C11 as stated fails on the tags `a` and `a b`: the blank sorts before the closing
double quote, so the code puts `"a b"` first, while in the order of the tags `a`
comes first. -/
theorem C11_hclServiceTags_counterexample :
    hclServiceTagsFunc ["a", "a b"] = "[\"a b\", \"a\"]" ∧
    hclServiceTagsSpec ["a", "a b"] = "[\"a\", \"a b\"]" ∧
    hclServiceTagsFunc ["a", "a b"] ≠ hclServiceTagsSpec ["a", "a b"] := by
  decide

/-- Two lists split at their first occurrence of `q` agree on both sides. -/
theorem append_cons_inj (q : Char) (ta tb rest rest2 : List Char) (ha : q ∉ ta)
    (hb : q ∉ tb) (heq : ta ++ q :: rest = tb ++ q :: rest2) : ta = tb ∧ rest = rest2 := by
  induction ta generalizing tb with
  | nil =>
    cases tb with
    | nil => exact ⟨rfl, by simpa using heq⟩
    | cons d tb2 =>
      have hd : q = d := by simpa using (List.cons.inj heq).1
      exact absurd (hd ▸ List.mem_cons_self _ _) hb
  | cons c ta2 ih =>
    cases tb with
    | nil =>
      have hc : c = q := by simpa using (List.cons.inj heq).1
      exact absurd (hc ▸ List.mem_cons_self _ _) ha
    | cons d tb2 =>
      have hcd := List.cons.inj heq
      have h2 := ih tb2 (fun h => ha (List.mem_cons_of_mem _ h))
        (fun h => hb (List.mem_cons_of_mem _ h)) hcd.2
      exact ⟨by rw [hcd.1, h2.1], h2.2⟩

/-- Two quoted tags followed by anything: equal texts have equal tags and equal
remainders. -/
theorem quoted_append_inj (a b : String) (rest rest2 : List Char) (ha : IsQuotedTag a)
    (hb : IsQuotedTag b) (heq : a.data ++ rest = b.data ++ rest2) : a = b ∧ rest = rest2 := by
  obtain ⟨ta, hta, hda⟩ := ha
  obtain ⟨tb, htb, hdb⟩ := hb
  rw [hda, hdb] at heq
  simp only [List.cons_append, List.append_assoc, List.singleton_append, List.cons.injEq,
    true_and] at heq
  have h := append_cons_inj _ ta tb rest rest2 hta htb heq
  refine ⟨String.ext ?_, h.2⟩
  rw [hda, hdb, h.1]

/-- The text after the first element of a joined list of quoted tags determines the
further elements. -/
theorem joinTail_inj (l l2 : List String) (hl : ∀ s ∈ l, IsQuotedTag s)
    (hl2 : ∀ s ∈ l2, IsQuotedTag s) (heq : joinTail ", ".data l = joinTail ", ".data l2) :
    l = l2 := by
  have hsep : (", " : String).data = Char.ofNat 44 :: [Char.ofNat 32] := rfl
  induction l generalizing l2 with
  | nil =>
    cases l2 with
    | nil => rfl
    | cons b bs => simp [joinTail, hsep] at heq
  | cons a as ih =>
    cases l2 with
    | nil => simp [joinTail, hsep] at heq
    | cons b bs =>
      simp only [joinTail, List.append_assoc] at heq
      have h := quoted_append_inj a b _ _ (hl a (List.mem_cons_self _ _))
        (hl2 b (List.mem_cons_self _ _)) (List.append_cancel_left heq)
      rw [h.1, ih bs (fun s hs => hl s (List.mem_cons_of_mem _ hs))
        (fun s hs => hl2 s (List.mem_cons_of_mem _ hs)) h.2]

/-- A joined list of quoted tags determines the list. -/
theorem intercalate_quoted_inj (l l2 : List String) (hl : ∀ s ∈ l, IsQuotedTag s)
    (hl2 : ∀ s ∈ l2, IsQuotedTag s) (heq : ", ".intercalate l = ", ".intercalate l2) :
    l = l2 := by
  have hdata := congrArg String.data heq
  cases l with
  | nil =>
    cases l2 with
    | nil => rfl
    | cons b bs =>
      obtain ⟨tb, _, hdb⟩ := hl2 b (List.mem_cons_self _ _)
      rw [intercalate_cons_data, hdb] at hdata
      simp [String.intercalate] at hdata
  | cons a as =>
    cases l2 with
    | nil =>
      obtain ⟨ta, _, hda⟩ := hl a (List.mem_cons_self _ _)
      rw [intercalate_cons_data, hda] at hdata
      simp [String.intercalate] at hdata
    | cons b bs =>
      rw [intercalate_cons_data, intercalate_cons_data] at hdata
      have h := quoted_append_inj a b _ _ (hl a (List.mem_cons_self _ _))
        (hl2 b (List.mem_cons_self _ _)) hdata
      rw [h.1, joinTail_inj as bs (fun s hs => hl s (List.mem_cons_of_mem _ hs))
        (fun s hs => hl2 s (List.mem_cons_of_mem _ hs)) h.2]

/-- Wrapping in double quotes loses nothing. -/
theorem quoted_injective : Function.Injective (fun s : String => "\"" ++ s ++ "\"") := by
  intro x y hxy
  have hdata := congrArg String.data hxy
  simp only [quoted_data, List.cons.injEq, true_and] at hdata
  exact String.ext (List.append_cancel_right hdata)

/-- The members of the sorted slice of quoted tags are quoted tags. -/
theorem sorted_quoted_isQuotedTag (tags : List String)
    (hq : ∀ t ∈ tags, Char.ofNat 34 ∉ t.data) :
    ∀ s ∈ sortStrings (tags.map (fun s => "\"" ++ s ++ "\"")), IsQuotedTag s := by
  intro s hs
  obtain ⟨t, ht, rfl⟩ := List.mem_map.mp ((sortStrings_perm _).mem_iff.mp hs)
  exact ⟨t.data, hq t ht, quoted_data t⟩

/-- C19: the rendering of `HCLServiceTags` is injective up to order on tags without
double quotes. For two lists of tags in which no tag contains a double quote (the
character of code point 34), if the function returns the same string for both, the
lists are permutations of each other: every tag occurs as many times in one as in
the other, duplicates being kept. -/
theorem C19_hclServiceTags_injective (tags tags2 : List String)
    (hq : ∀ t ∈ tags, Char.ofNat 34 ∉ t.data) (hq2 : ∀ t ∈ tags2, Char.ofNat 34 ∉ t.data)
    (heq : hclServiceTagsFunc tags = hclServiceTagsFunc tags2) :
    tags.Perm tags2 ∧ ∀ t, tags.count t = tags2.count t := by
  rw [hclServiceTagsFunc_eq, hclServiceTagsFunc_eq] at heq
  have hdata := congrArg String.data heq
  simp only [String.data_append] at hdata
  have hjoin : ", ".intercalate (sortStrings (tags.map (fun s => "\"" ++ s ++ "\""))) =
      ", ".intercalate (sortStrings (tags2.map (fun s => "\"" ++ s ++ "\""))) :=
    String.ext (List.append_cancel_left (List.append_cancel_right hdata))
  have hsorted := intercalate_quoted_inj _ _ (sorted_quoted_isQuotedTag tags hq)
    (sorted_quoted_isQuotedTag tags2 hq2) hjoin
  have hpermq : (tags.map (fun s => "\"" ++ s ++ "\"")).Perm
      (tags2.map (fun s => "\"" ++ s ++ "\"")) := by
    have h1 := (sortStrings_perm (tags.map (fun s => "\"" ++ s ++ "\""))).symm
    rw [hsorted] at h1
    exact h1.trans (sortStrings_perm _)
  have hcount : ∀ t, tags.count t = tags2.count t := by
    intro t
    rw [← List.count_map_of_injective tags _ quoted_injective t,
      ← List.count_map_of_injective tags2 _ quoted_injective t]
    exact List.perm_iff_count.mp hpermq _
  exact ⟨List.perm_iff_count.mpr hcount, hcount⟩

/-- C19 at a concrete input: two lists with the same rendering, a tag occurring twice
in each. -/
theorem C19_hclServiceTags_injective_witness :
    (∀ t ∈ ["b", "a", "a"], Char.ofNat 34 ∉ t.data) ∧
    (∀ t ∈ ["a", "b", "a"], Char.ofNat 34 ∉ t.data) ∧
    hclServiceTagsFunc ["b", "a", "a"] = hclServiceTagsFunc ["a", "b", "a"] ∧
    (["b", "a", "a"].Perm ["a", "b", "a"] ∧
      ∀ t, ["b", "a", "a"].count t = ["a", "b", "a"].count t) :=
  ⟨by decide, by decide, by decide,
    C19_hclServiceTags_injective ["b", "a", "a"] ["a", "b", "a"] (by decide) (by decide)
      (by decide)⟩

/-! ## The resolver on a dependency that never receives data -/

/-- Adding a dependency leaves every last-known value as it is. -/
theorem Watcher.recall_Add (w : Watcher) (d k : String) :
    (w.Add d).1.Recall k = w.Recall k := by
  unfold Watcher.Add Watcher.Recall
  by_cases hreg : (w.deps d).registered = true
  · simp [hreg]
  · by_cases hk : k = d
    · simp [hreg, hk]
    · simp [hreg, hk]

/-- Executing a template body leaves every last-known value as it is. -/
theorem TemplateBody.recall_Execute (body : TemplateBody) (w : Watcher) (k : String) :
    (body.Execute w).watcher.Recall k = w.Recall k := by
  induction body generalizing w with
  | text out => rfl
  | fail err => rfl
  | ref d next ih =>
    simp only [TemplateBody.Execute]
    rw [ih, Watcher.recall_Add]

/-- A render pass leaves every last-known value as it is. -/
theorem Resolver.recall_Run (tmpl : Template) (w : Watcher) (k : String) :
    (Resolver.Run tmpl w).2.Recall k = w.Recall k := by
  have hexec := TemplateBody.recall_Execute tmpl.body w k
  unfold Resolver.Run
  simp only
  split
  · exact hexec
  · split
    · exact hexec
    · rw [← hexec]
      unfold Watcher.Recall Watcher.consume Watcher.Register
      by_cases hk : k ∈ (tmpl.body.Execute w).refs
      · simp [hk]
      · simp [hk]

/-- A snapshot for one dependency leaves the last-known value of another as it is. -/
theorem Watcher.recall_deliver_ne (w : Watcher) (d value k : String) (hk : k ≠ d) :
    (w.deliver d value).Recall k = w.Recall k := by
  unfold Watcher.deliver Watcher.Recall
  by_cases hreg : (w.deps d).registered = true
  · simp [hreg, hk]
  · simp [hreg]

/-- A dependency that receives no snapshot during a sequence of events has the same
last-known value after it. -/
theorem Watcher.recall_after (events : List WatchEvent) (w : Watcher) (d : String)
    (hnever : ∀ k value, WatchEvent.deliver k value ∈ events → k ≠ d) :
    (w.after events).Recall d = w.Recall d := by
  induction events generalizing w with
  | nil => rfl
  | cons e rest ih =>
    have hrest : ∀ k value, WatchEvent.deliver k value ∈ rest → k ≠ d :=
      fun k value hmem => hnever k value (List.mem_cons_of_mem _ hmem)
    have hstep : (w.step e).Recall d = w.Recall d := by
      cases e with
      | run tmpl => exact Resolver.recall_Run tmpl w d
      | deliver k value =>
        have hkd : k ≠ d := hnever k value (List.mem_cons_self _ _)
        exact Watcher.recall_deliver_ne w k value d (fun h => hkd h.symm)
    show ((w.step e).after rest).Recall d = w.Recall d
    rw [ih (w.step e) hrest, hstep]

/-- A render pass whose body raises no templating error and references a dependency
without value is flagged "not ready". -/
theorem Resolver.Run_notReady (tmpl : Template) (w : Watcher) (d text : String)
    (hload : w.Recall d = none) (href : d ∈ (tmpl.body.Execute w).refs)
    (hok : (tmpl.body.Execute w).result = Except.ok text) :
    (Resolver.Run tmpl w).1 = Except.ok ResolveEvent.notReady := by
  have hexec := TemplateBody.recall_Execute tmpl.body w d
  have hany : (tmpl.body.Execute w).refs.any
      (fun d => ((tmpl.body.Execute w).watcher.Recall d).isNone) = true :=
    List.any_eq_true.mpr ⟨d, href, by rw [hexec, hload]; rfl⟩
  unfold Resolver.Run
  simp only [hok, hany, if_true]

/-- A render pass whose body raises a templating error returns that error. -/
theorem Resolver.Run_error (tmpl : Template) (w : Watcher) (err : String)
    (herr : (tmpl.body.Execute w).result = Except.error err) :
    (Resolver.Run tmpl w).1 = Except.error err := by
  unfold Resolver.Run
  simp only [herr]

/-- C15, as amended: a dependency `d` that has no value in the watcher `w` and
receives no snapshot during a sequence of events, which may hold any number of render
passes of any templates and snapshots for other dependencies, is still loading after
it; and every call of `Run` in the sequence on a template whose body references `d`
and raises no templating error in that pass returns a result flagged "not ready",
not an error. A pass whose body raises a templating error returns that error. The
time limit of `Wait` bounds how long the caller goes on; the statement holds for
every number of calls. -/
theorem C15_run_not_ready_while_loading (w : Watcher) (d : String)
    (events : List WatchEvent) (hload : w.Recall d = none)
    (hnever : ∀ k value, WatchEvent.deliver k value ∈ events → k ≠ d) :
    (w.after events).Recall d = none ∧
    ∀ (before later : List WatchEvent) (tmpl : Template),
      events = before ++ WatchEvent.run tmpl :: later →
      d ∈ (tmpl.body.Execute (w.after before)).refs →
      (∀ text, (tmpl.body.Execute (w.after before)).result = Except.ok text →
        (Resolver.Run tmpl (w.after before)).1 = Except.ok ResolveEvent.notReady) ∧
      (∀ err, (tmpl.body.Execute (w.after before)).result = Except.error err →
        (Resolver.Run tmpl (w.after before)).1 = Except.error err) := by
  refine ⟨(Watcher.recall_after events w d hnever).trans hload, ?_⟩
  intro before later tmpl hsplit href
  have hbefore : (w.after before).Recall d = none := by
    rw [Watcher.recall_after before w d, hload]
    intro k value hmem
    apply hnever k value
    rw [hsplit]
    exact List.mem_append_left _ hmem
  exact ⟨fun text hok => Resolver.Run_notReady tmpl (w.after before) d text hbefore href hok,
    fun err herr => Resolver.Run_error tmpl (w.after before) err herr⟩

/-- C15 at a concrete input: on a watcher that tracks nothing, a template that
references the dependencies `svc` and `other` is run, a snapshot arrives for `other`,
and the template is run again; the second call is flagged "not ready" too. -/
theorem C15_run_not_ready_while_loading_witness :
    Watcher.empty.Recall "svc" = none ∧
    (Resolver.Run
      ⟨"t", TemplateBody.ref "svc" (fun _ =>
        TemplateBody.ref "other" (fun _ => TemplateBody.text "text"))⟩
      (Watcher.empty.after
        [WatchEvent.run ⟨"t", TemplateBody.ref "svc" (fun _ =>
          TemplateBody.ref "other" (fun _ => TemplateBody.text "text"))⟩,
         WatchEvent.deliver "other" "x"])).1 = Except.ok ResolveEvent.notReady :=
  ⟨rfl,
    ((C15_run_not_ready_while_loading Watcher.empty "svc"
      [WatchEvent.run ⟨"t", TemplateBody.ref "svc" (fun _ =>
        TemplateBody.ref "other" (fun _ => TemplateBody.text "text"))⟩,
       WatchEvent.deliver "other" "x",
       WatchEvent.run ⟨"t", TemplateBody.ref "svc" (fun _ =>
        TemplateBody.ref "other" (fun _ => TemplateBody.text "text"))⟩]
      rfl
      (by
        intro k value hmem
        simp only [List.mem_cons, List.mem_singleton, WatchEvent.deliver.injEq,
          List.not_mem_nil, or_false] at hmem
        rcases hmem with h | h | h
        · cases h
        · rw [h.1]
          decide
        · cases h)).2
      [WatchEvent.run ⟨"t", TemplateBody.ref "svc" (fun _ =>
        TemplateBody.ref "other" (fun _ => TemplateBody.text "text"))⟩,
       WatchEvent.deliver "other" "x"]
      [] ⟨"t", TemplateBody.ref "svc" (fun _ =>
        TemplateBody.ref "other" (fun _ => TemplateBody.text "text"))⟩ rfl
      (List.mem_cons_self _ _)).1 "text" rfl⟩

/-- C15 as stated fails on a template whose body references the loading dependency
`svc` and then raises a templating error: the dependency has no value, and the call
of `Run` returns the error, not a result flagged "not ready". -/
theorem C15_run_not_ready_counterexample :
    Watcher.empty.Recall "svc" = none ∧
    "svc" ∈ ((TemplateBody.ref "svc" (fun _ => TemplateBody.fail "bad call")).Execute
      Watcher.empty).refs ∧
    (Resolver.Run ⟨"t", TemplateBody.ref "svc" (fun _ => TemplateBody.fail "bad call")⟩
      Watcher.empty).1 = Except.error "bad call" ∧
    (Resolver.Run ⟨"t", TemplateBody.ref "svc" (fun _ => TemplateBody.fail "bad call")⟩
      Watcher.empty).1 ≠ Except.ok ResolveEvent.notReady :=
  ⟨rfl, List.mem_cons_self _ _, rfl, fun h => Except.noConfusion h⟩

end CTS
